import Mathlib

/-!
Verification development for the document-block synthesis engine of the
`astrbot_plugin_Video_analyzer` repository (`src/services/feishu_wiki.py`,
class `FeishuWikiPusher`).  The Python functions are shallowly embedded as
executable Lean functions on `List Char` / `String`; network and filesystem
effects are parameterised by explicit environments (oracles), and the
sequence of outgoing requests is recorded as an explicit trace.
-/

namespace FW

/-! ### Character and string utilities -/

/-- The backtick character. -/
def btick : Char := Char.ofNat 96

/-- Whitespace as recognised by Python `str.strip()` / regex `\s` (ASCII part). -/
def isSpaceChar (c : Char) : Bool :=
  c = ' ' || c = '\t' || c = '\n' || c = '\r' || c = Char.ofNat 11 || c = Char.ofNat 12

/-- Python `str.strip()`: drop whitespace from both ends. -/
def stripL (l : List Char) : List Char :=
  ((l.dropWhile isSpaceChar).reverse.dropWhile isSpaceChar).reverse

/-- Python `"\n".join(lines)`. -/
def joinNL (ls : List (List Char)) : List Char :=
  (ls.intersperse ['\n']).flatten

/-- Python `str.splitlines()` (handling `\n`, `\r\n` and `\r`). -/
def splitLinesGo : List Char → List Char → List (List Char)
  | [], acc => if acc.isEmpty then [] else [acc.reverse]
  | '\r' :: '\n' :: rest, acc => acc.reverse :: splitLinesGo rest []
  | '\r' :: rest, acc => acc.reverse :: splitLinesGo rest []
  | '\n' :: rest, acc => acc.reverse :: splitLinesGo rest []
  | c :: rest, acc => splitLinesGo rest (c :: acc)

/-- Python `str.splitlines()` on the whole text. -/
def splitLines (l : List Char) : List (List Char) := splitLinesGo l []

/-! ### Inline style tokenizer (`_tokenize_inline`)

The regex
`(`...`|\*\*..\*\*|__..__|\*..\*|_.._|~~..~~|$..$)` is embedded
alternative by alternative.  Each alternative's repeated class `[^x]+` is
greedy and cannot contain its closing delimiter, so a match at a position
is determined by the position of the next delimiter character. -/

/-- Match `` `[^`]+` `` at the head of the list; returns the match length. -/
def altCode : List Char → Option Nat
  | c :: rest =>
    if c = btick then
      match rest.findIdx? (fun d => d = btick) with
      | some k => if 1 ≤ k then some (k + 2) else none
      | none => none
    else none
  | [] => none

/-- Match a doubled delimiter span (`\*\*[^*]+\*\*`, `__[^_]+__`, `~~[^~]+~~`). -/
def altDouble (m : Char) : List Char → Option Nat
  | a :: b :: rest =>
    if a = m ∧ b = m then
      match rest.findIdx? (fun d => d = m) with
      | some k => if 1 ≤ k ∧ rest[k+1]? = some m then some (k + 4) else none
      | none => none
    else none
  | _ => none

/-- Match a single-delimiter span (`\*[^*]+\*`, `_[^_]+_`, `\$[^$]+\$`). -/
def altSingle (m : Char) : List Char → Option Nat
  | c :: rest =>
    if c = m then
      match rest.findIdx? (fun d => d = m) with
      | some k => if 1 ≤ k then some (k + 2) else none
      | none => none
    else none
  | [] => none

/-- Try the regex alternation at the head of the list, alternatives in the
source pattern's order. -/
def tryMatch (cs : List Char) : Option Nat :=
  altCode cs <|> altDouble '*' cs <|> altDouble '_' cs <|> altSingle '*' cs <|>
    altSingle '_' cs <|> altDouble '~' cs <|> altSingle '$' cs

/-- The inline style flags attached to a text run.  In the Python source a
style is a partial dict (`{}`, `{"bold": True}`, ...); the five possible
values are modelled as constructors. -/
inductive IStyle
  | plain
  | icode
  | bold
  | italic
  | strike
deriving DecidableEq

/-- One inline run: either a styled text run or an equation run (which,
as in the data model, carries no style set). -/
inductive Run
  | textRun (s : List Char) (st : IStyle)
  | eqRun (e : List Char)
deriving DecidableEq

/-- Does the list start with character `c`? (Python `startswith` for 1 char.) -/
def headIs (c : Char) : List Char → Bool
  | x :: _ => x = c
  | [] => false

/-- Does the list end with character `c`? -/
def lastIs (c : Char) (l : List Char) : Bool := headIs c l.reverse

/-- Does the list start with the two characters `a`, `b`? -/
def startsWith2 (a b : Char) : List Char → Bool
  | x :: y :: _ => x = a && y = b
  | _ => false

/-- Does the list end with the two characters `a`, `b` (in that order)? -/
def endsWith2 (a b : Char) (l : List Char) : Bool :=
  match l.reverse with
  | y :: x :: _ => x = a && y = b
  | _ => false

/-- `_parse_inline_token`: classify one matched token. -/
def parse_inline_token (t : List Char) : Run :=
  if headIs btick t ∧ lastIs btick t then .textRun (t.drop 1).dropLast .icode
  else if headIs '$' t ∧ lastIs '$' t then .eqRun (t.drop 1).dropLast
  else if (startsWith2 '*' '*' t ∧ endsWith2 '*' '*' t) ∨
      (startsWith2 '_' '_' t ∧ endsWith2 '_' '_' t) then
    .textRun ((t.drop 2).dropLast.dropLast) .bold
  else if (headIs '*' t ∧ lastIs '*' t) ∨ (headIs '_' t ∧ lastIs '_' t) then
    .textRun ((t.drop 1).dropLast) .italic
  else if startsWith2 '~' '~' t ∧ endsWith2 '~' '~' t then
    .textRun ((t.drop 2).dropLast.dropLast) .strike
  else .textRun t .plain

/-- Emit the pending plain-text gap, if non-empty. -/
def flushPending (p : List Char) : List Run :=
  if p.isEmpty then [] else [.textRun p .plain]

/-- The `finditer` scan of `_tokenize_inline`: walk the text, emitting the
plain gap before each regex match and the parsed matched token.  `fuel`
bounds the recursion; it is instantiated with the text length, which always
suffices since every step consumes at least one character. -/
def tokGo : Nat → List Char → List Char → List Run
  | _, [], pending => flushPending pending
  | 0, l, pending => flushPending (pending ++ l)
  | fuel+1, c :: rest, pending =>
    match tryMatch (c :: rest) with
    | some len =>
      flushPending pending ++
        (parse_inline_token ((c :: rest).take len) :: tokGo fuel ((c :: rest).drop len) [])
    | none => tokGo fuel rest (pending ++ [c])

/-- One step of the merge loop at the end of `_tokenize_inline` (the
accumulator holds the merged list in reverse). -/
def mergeStepRev (acc : List Run) (r : Run) : List Run :=
  match r with
  | .eqRun e => .eqRun e :: acc
  | .textRun s st =>
    if s.isEmpty then acc
    else
      match acc with
      | .textRun s' st' :: tl =>
        if st' = st then .textRun (s' ++ s) st' :: tl else .textRun s st :: acc
      | _ => .textRun s st :: acc

/-- The merge loop at the end of `_tokenize_inline`: drop empty text runs and
coalesce adjacent text runs with identical style. -/
def mergeRuns (l : List Run) : List Run := (l.foldl mergeStepRev []).reverse

/-- `_tokenize_inline`: scan the text for inline-style spans and merge. -/
def tokenize_inline (cs : List Char) : List Run := mergeRuns (tokGo cs.length cs [])

/-- The text of a run, taking an equation run's expression as its text. -/
def runText : Run → List Char
  | .textRun s _ => s
  | .eqRun e => e

/-- Concatenate the texts of all runs, ignoring style. -/
def concatRunText (l : List Run) : List Char := (l.map runText).flatten

/-! ### Link degradation (`_parse_inline_elements`, first line)

`re.sub(r"\[([^\]]+)\]\((https?://[^\)]+)\)", r"\1 (\2)", text)`. -/

/-- Length of the URL scheme (`https://` or `http://`) at the head, if any. -/
def schemeLen (l : List Char) : Option Nat :=
  if l.take 8 = ("https://").toList then some 8
  else if l.take 7 = ("http://").toList then some 7
  else none

/-- Match the link pattern at the head of the list.  Returns
`(k, sl, j)`: the link text length, scheme length and URL body length;
the whole match has length `k + sl + j + 4`. -/
def matchLink : List Char → Option (Nat × Nat × Nat)
  | '[' :: r1 =>
    match r1.findIdx? (fun d => d = ']') with
    | some k =>
      if 1 ≤ k then
        match r1.drop (k+1) with
        | '(' :: r3 =>
          match schemeLen r3 with
          | some sl =>
            match (r3.drop sl).findIdx? (fun d => d = ')') with
            | some j => if 1 ≤ j then some (k, sl, j) else none
            | none => none
          | none => none
        | _ => none
      else none
    | none => none
  | _ => none

/-- The `re.sub` scan for link degradation: each match `[text](url)` is
replaced by `text (url)`; unmatched characters are copied. -/
def linkDegradeGo : Nat → List Char → List Char
  | _, [] => []
  | 0, l => l
  | fuel+1, c :: rest =>
    match matchLink (c :: rest) with
    | some (k, sl, j) =>
      ((c :: rest).drop 1).take k ++
        (' ' :: '(' :: (((c :: rest).drop (k + 3)).take (sl + j) ++ [')'])) ++
        linkDegradeGo fuel ((c :: rest).drop (k + sl + j + 4))
    | none => c :: linkDegradeGo fuel rest

/-- Link degradation: `[text](url)` becomes `text (url)`. -/
def linkDegrade (l : List Char) : List Char := linkDegradeGo l.length l

/-- `_parse_inline_elements`: degrade links, tokenize, and fall back to one
plain run with the original content when the token list is empty. -/
def parse_inline_elements (content : List Char) : List Run :=
  let ts := tokenize_inline (linkDegrade content)
  if ts.isEmpty then [.textRun content .plain] else ts

/-! ### Per-line recognizers of `_build_blocks_from_markdown` -/

/-- A character of the fence language tag class `[a-zA-Z0-9_+-]`. -/
def isLangChar (c : Char) : Bool :=
  ('a' ≤ c && c ≤ 'z') || ('A' ≤ c && c ≤ 'Z') || ('0' ≤ c && c ≤ '9') ||
    c = '_' || c = '+' || c = '-'

/-- An ASCII decimal digit (regex `\d`). -/
def isDigitChar (c : Char) : Bool := '0' ≤ c && c ≤ '9'

/-- Regex `^```([a-zA-Z0-9_+-]*)\s*$`; returns the language group. -/
def fenceMatch (s : List Char) : Option (List Char) :=
  if s.take 3 = [btick, btick, btick] then
    let rest := s.drop 3
    let lang := rest.takeWhile isLangChar
    if (rest.drop lang.length).all isSpaceChar then some lang else none
  else none

/-- Regex `^(#{1,6})\s+(.*)$`; returns the level and the raw group 2. -/
def headingMatch (s : List Char) : Option (Nat × List Char) :=
  let c := (s.takeWhile (fun d => d = '#')).length
  if 1 ≤ c ∧ c ≤ 6 then
    match s.drop c with
    | d :: rest2 => if isSpaceChar d then some (c, (d :: rest2).dropWhile isSpaceChar) else none
    | [] => none
  else none

/-- Regex `^!\[([^\]]*)\]\((https?://[^\)]+)\)$`; returns `(alt, url)`. -/
def imageLineMatch (s : List Char) : Option (List Char × List Char) :=
  match s with
  | '!' :: '[' :: r1 =>
    match r1.findIdx? (fun d => d = ']') with
    | some k =>
      match r1.drop (k+1) with
      | '(' :: r3 =>
        match schemeLen r3 with
        | some sl =>
          match (r3.drop sl).findIdx? (fun d => d = ')') with
          | some j =>
            if 1 ≤ j ∧ (r3.drop sl).drop (j+1) = [] then
              some (r1.take k, r3.take (sl + j))
            else none
          | none => none
        | none => none
      | _ => none
    | none => none
  | _ => none

/-- Regex `^(-{3,}|_{3,}|\*{3,})$`. -/
def ruleMatch (s : List Char) : Bool :=
  3 ≤ s.length && (s.all (fun c => c = '-') || s.all (fun c => c = '_') ||
    s.all (fun c => c = '*'))

/-- Regex `^>\s?(.*)$`; returns the group. -/
def quoteMatch : List Char → Option (List Char)
  | '>' :: r =>
    match r with
    | d :: rest => if isSpaceChar d then some rest else some (d :: rest)
    | [] => some []
  | _ => none

/-- Regex `^[-*]\s+(.*)$`; returns the group. -/
def bulletMatch : List Char → Option (List Char)
  | c :: r =>
    if c = '-' || c = '*' then
      let ws := r.takeWhile isSpaceChar
      if ws.isEmpty then none else some (r.drop ws.length)
    else none
  | [] => none

/-- Regex `^\d+\.\s+(.*)$`; returns the group. -/
def orderedMatch (s : List Char) : Option (List Char) :=
  let ds := s.takeWhile isDigitChar
  if ds.isEmpty then none
  else
    match s.drop ds.length with
    | '.' :: r =>
      let ws := r.takeWhile isSpaceChar
      if ws.isEmpty then none else some (r.drop ws.length)
    | _ => none

/-- Python `stripped.strip("| ")`. -/
def stripPipeSpace (l : List Char) : List Char :=
  let f := fun c => c = '|' || c = ' '
  ((l.dropWhile f).reverse.dropWhile f).reverse

/-- Match `\s*\|\s*` at the head; returns the match length. -/
def pipeMatchLen (l : List Char) : Option Nat :=
  let a := (l.takeWhile isSpaceChar).length
  match l.drop a with
  | '|' :: r => some (a + 1 + (r.takeWhile isSpaceChar).length)
  | _ => none

/-- The `re.sub(r"\s*\|\s*", " | ", ...)` scan for table rows. -/
def pipeSubGo : Nat → List Char → List Char
  | _, [] => []
  | 0, l => l
  | fuel+1, c :: rest =>
    match pipeMatchLen (c :: rest) with
    | some len => ' ' :: '|' :: ' ' :: pipeSubGo fuel ((c :: rest).drop len)
    | none => c :: pipeSubGo fuel rest

/-- Normalize `|` spacing in a degraded table row. -/
def pipeSub (l : List Char) : List Char := pipeSubGo l.length l

/-- The language table of `_map_code_language`. -/
def langTable : List (List Char × Nat) :=
  [(("plain").toList, 1), (("text").toList, 1), (("python").toList, 49), (("py").toList, 49),
   (("javascript").toList, 34), (("js").toList, 34), (("typescript").toList, 73),
   (("ts").toList, 73), (("java").toList, 33), (("go").toList, 26), (("bash").toList, 3),
   (("sh").toList, 3), (("shell").toList, 3), (("json").toList, 35), (("yaml").toList, 74),
   (("yml").toList, 74), (("sql").toList, 62), (("markdown").toList, 40), (("md").toList, 40),
   (("xml").toList, 75), (("html").toList, 29), (("css").toList, 11), (("cpp").toList, 12),
   (("c++").toList, 12), (("c").toList, 10), (("rust").toList, 59)]

/-- `_map_code_language`: map a language tag to the remote numeric id,
falling back to plain text (1). -/
def map_code_language (lang : List Char) : Nat :=
  (langTable.lookup ((stripL lang).map Char.toLower)).getD 1

/-- `_split_text` loop: cut into chunks of 900 characters. -/
def split_text_go : Nat → List Char → List (List Char)
  | _, [] => []
  | 0, l => [l]
  | fuel+1, l => l.take 900 :: split_text_go fuel (l.drop 900)

/-- `_split_text` with the default `max_len = 900`. -/
def split_text (l : List Char) : List (List Char) :=
  if l.length ≤ 900 then [l] else split_text_go l.length l

/-! ### Data model: blocks and media tasks -/

/-- The source kind of a `MediaTask` (`"local"` or `"url"`). -/
inductive TaskKind
  | localK
  | urlK
deriving DecidableEq

/-- A pending media task: `image_tasks[temp_id] = {"type": ..., "value": ...}`. -/
structure MediaTask where
  kind : TaskKind
  value : String
deriving DecidableEq

/-- One document block as produced by the block-builder helpers of
`FeishuWikiPusher` (`_text_block`, `_text_block_with_inline`,
`_list_block_with_inline`, `_code_block`, `_equation_block`,
`_heading_block`, `_image_block`). -/
inductive Block
  | textB (s : List Char)
  | paraB (els : List Run)
  | bulletB (els : List Run)
  | orderedB (els : List Run)
  | codeB (code : List Char) (langId : Nat)
  | eqB (expr : List Char)
  | headB (level : Nat) (s : List Char)
  | imgB (tempId : String)
deriving DecidableEq

/-! ### Asset Placement Planner (`_build_screenshot_insert_map`) -/

/-- Python `round(a / b)` for naturals with `b > 0`, computed exactly on
the ratio `a / b`: round to nearest, ties to even (Python rounds halves
to even).  With `q`, `r` the Euclidean quotient and remainder, the
fractional part `r / b` is compared with `1/2` as `2 * r` against `b`. -/
def natRoundDiv (a b : Nat) : Nat :=
  let q := a / b
  let r := a % b
  if 2 * r < b then q
  else if b < 2 * r then q + 1
  else if q % 2 = 0 then q else q + 1

/-- One line of the pre-scan of `_build_screenshot_insert_map`: record the
`heading_seen` counter at level-≥2 headings, counting every heading line. -/
def hiStep (p : List Nat × Nat) (raw : List Char) : List Nat × Nat :=
  match headingMatch (stripL raw) with
  | none => p
  | some lt => (if 2 ≤ lt.1 then p.1 ++ [p.2] else p.1, p.2 + 1)

/-- The pre-scan of `_build_screenshot_insert_map`: the overall heading
counter values (`heading_seen`) at each heading of level ≥ 2.  The counter
counts every heading line of any level. -/
def heading_indexes (note : List Char) : List Nat :=
  ((splitLines note).foldl hiStep ([], 0)).1

/-- `mapping.setdefault(k, []).append(v)` on an insertion-ordered dict. -/
def appendAt (k : Nat) (v : String) : List (Nat × List String) → List (Nat × List String)
  | [] => [(k, [v])]
  | (k', vs) :: rest => if k' = k then (k', vs ++ [v]) :: rest else (k', vs) :: appendAt k v rest

/-- `round(i * (m - 1) / max(1, n - 1))` for the i-th of n assets over m slots. -/
def shotPos (n m i : Nat) : Nat :=
  natRoundDiv (i * (m - 1)) (max 1 (n - 1))

/-- One step of the distribution loop of `_build_screenshot_insert_map`:
append the `ip.1`-th path `ip.2` to the entry keyed by the heading index
at slot `round(i * (m-1) / max(1, n-1))`. -/
def insStep (idxs : List Nat) (n m : Nat) (acc : List (Nat × List String))
    (ip : Nat × String) : List (Nat × List String) :=
  appendAt (idxs.getD (shotPos n m ip.1) 0) ip.2 acc

/-- `_build_screenshot_insert_map`: distribute asset paths over the
level-≥2 heading positions. -/
def build_screenshot_insert_map (note : List Char) (shots : List String) :
    List (Nat × List String) :=
  if shots.isEmpty then []
  else
    match heading_indexes note with
    | [] => []
    | [i] => [(i, shots)]
    | idxs =>
      (shots.enum).foldl (insStep idxs shots.length idxs.length)
        (idxs.map (fun i => (i, ([] : List String))))

/-! ### Block Classifier (`_build_blocks_from_markdown`) -/

/-- The environment of the classifier: the filesystem check
`p.exists() and p.is_file()` for screenshot paths. -/
structure ClassEnv where
  fileExists : String → Bool

/-- The classifier's mutable state during the line loop. -/
structure CState where
  blocks : List Block
  imageTasks : List (String × MediaTask)
  inCode : Bool
  codeLang : List Char
  codeLines : List (List Char)
  inFormula : Bool
  formulaLines : List (List Char)
  shotIdx : Nat
  ctr : Nat
deriving DecidableEq

/-- Append one block. -/
def stPush (st : CState) (b : Block) : CState :=
  ⟨st.blocks ++ [b], st.imageTasks, st.inCode, st.codeLang, st.codeLines,
    st.inFormula, st.formulaLines, st.shotIdx, st.ctr⟩

/-- Record one media task. -/
def stAddTask (st : CState) (tid : String) (t : MediaTask) : CState :=
  ⟨st.blocks, st.imageTasks ++ [(tid, t)], st.inCode, st.codeLang, st.codeLines,
    st.inFormula, st.formulaLines, st.shotIdx, st.ctr⟩

/-- Set the fenced-code modal state. -/
def stSetCode (st : CState) (ic : Bool) (lang : List Char) (ls : List (List Char)) : CState :=
  ⟨st.blocks, st.imageTasks, ic, lang, ls, st.inFormula, st.formulaLines, st.shotIdx, st.ctr⟩

/-- Set the block-formula modal state. -/
def stSetFormula (st : CState) (f : Bool) (ls : List (List Char)) : CState :=
  ⟨st.blocks, st.imageTasks, st.inCode, st.codeLang, st.codeLines, f, ls, st.shotIdx, st.ctr⟩

/-- Increment the temporary-id counter (one `uuid4` draw). -/
def stIncCtr (st : CState) : CState :=
  ⟨st.blocks, st.imageTasks, st.inCode, st.codeLang, st.codeLines, st.inFormula,
    st.formulaLines, st.shotIdx, st.ctr + 1⟩

/-- Increment `screenshot_global_idx`. -/
def stIncShot (st : CState) : CState :=
  ⟨st.blocks, st.imageTasks, st.inCode, st.codeLang, st.codeLines, st.inFormula,
    st.formulaLines, st.shotIdx + 1, st.ctr⟩

/-- Process one line of the markdown input, mirroring the body of the
`for raw in lines` loop of `_build_blocks_from_markdown` branch by branch
in source order. -/
def procLine (env : ClassEnv) (imap : List (Nat × List String)) (st : CState)
    (raw : List Char) : CState :=
  let line := raw
  let stripped := stripL line
  match fenceMatch stripped with
  | some g =>
    if st.inCode = false then
      stSetCode st true (stripL (g.map Char.toLower)) []
    else
      let codeText := stripL (joinNL st.codeLines)
      let st1 := if codeText.isEmpty then st
        else stPush st (Block.codeB codeText (map_code_language st.codeLang))
      stSetCode st1 false [] []
  | none =>
    if st.inCode then stSetCode st true st.codeLang (st.codeLines ++ [line])
    else if stripped = ['$', '$'] then
      if st.inFormula = false then stSetFormula st true []
      else
        let expr := stripL (joinNL st.formulaLines)
        let st1 := if expr.isEmpty then st else stPush st (Block.eqB expr)
        stSetFormula st1 false []
    else if st.inFormula then stSetFormula st true (st.formulaLines ++ [line])
    else if startsWith2 '$' '$' stripped ∧ endsWith2 '$' '$' stripped ∧ 4 < stripped.length then
      let expr := stripL ((stripped.drop 2).dropLast.dropLast)
      if expr.isEmpty then st else stPush st (Block.eqB expr)
    else if stripped.isEmpty then st
    else
      match imageLineMatch stripped with
      | some au =>
        let alt := stripL au.1
        let imgUrl := stripL au.2
        let tid := "img_" ++ Nat.repr st.ctr
        let st1 := stIncCtr (stAddTask (stPush st (Block.imgB tid)) tid ⟨.urlK, String.mk imgUrl⟩)
        if alt.isEmpty then st1 else stPush st1 (Block.textB (("图：").toList ++ alt))
      | none =>
        match headingMatch stripped with
        | some lt =>
          let text := stripL lt.2
          if text.isEmpty then st
          else
            let st1 := stPush st (Block.headB (max 1 (min 6 lt.1)) text)
            let bound := (imap.lookup st.shotIdx).getD []
            let st2 := bound.foldl (fun s path =>
              if env.fileExists path then
                let tid := "simg_" ++ Nat.repr s.ctr
                stIncCtr (stAddTask (stPush s (Block.imgB tid)) tid ⟨.localK, path⟩)
              else s) st1
            stIncShot st2
        | none =>
          if ruleMatch stripped then stPush st (Block.textB (("──────────").toList))
          else
            match quoteMatch stripped with
            | some q =>
              let qt := stripL q
              if qt.isEmpty then st else stPush st (Block.textB ('▌' :: qt))
            | none =>
              match bulletMatch stripped with
              | some b => stPush st (Block.bulletB (parse_inline_elements (stripL b)))
              | none =>
                match orderedMatch stripped with
                | some o => stPush st (Block.orderedB (parse_inline_elements (stripL o)))
                | none =>
                  if headIs '|' stripped ∧ (stripped.drop 1).contains '|' then
                    stPush st (Block.textB (pipeSub (stripPipeSpace stripped)))
                  else
                    (split_text stripped).foldl
                      (fun s part => stPush s (Block.paraB (parse_inline_elements part))) st

/-- The initial classifier state (possibly holding the leading
source-link block). -/
def initState (videoUrl : List Char) : CState :=
  ⟨if videoUrl.isEmpty then []
    else [Block.textB (("原视频链接：").toList ++ videoUrl)],
   [], false, [], [], false, [], 0, 0⟩

/-- The classifier state after the whole line loop. -/
def classifyState (env : ClassEnv) (note videoUrl : List Char) (shots : List String) : CState :=
  let imap := build_screenshot_insert_map note shots
  (splitLines note).foldl (procLine env imap) (initState videoUrl)

/-- End-of-input flush of an unterminated fenced code block. -/
def flushCodeB (st : CState) : List Block :=
  if st.inCode ∧ ¬ st.codeLines.isEmpty then
    let c := stripL (joinNL st.codeLines)
    if c.isEmpty then [] else [Block.codeB c (map_code_language st.codeLang)]
  else []

/-- End-of-input flush of an unterminated block formula. -/
def flushFormulaB (st : CState) : List Block :=
  if st.inFormula ∧ ¬ st.formulaLines.isEmpty then
    let e := stripL (joinNL st.formulaLines)
    if e.isEmpty then [] else [Block.eqB e]
  else []

/-- The screenshot paths not consumed by any heading slot. -/
def leftoverShots (note : List Char) (shots : List String) : List String :=
  let consumed := ((build_screenshot_insert_map note shots).map Prod.snd).flatten
  shots.filter (fun p => ¬ consumed.contains p)

/-- Append the leftover screenshots at the end of the document. -/
def leftoverFold (env : ClassEnv) (start : CState) (remaining : List String) : CState :=
  remaining.foldl (fun s path =>
    if env.fileExists path then
      let tid := "simg_" ++ Nat.repr s.ctr
      stIncCtr (stAddTask (stPush s (Block.imgB tid)) tid ⟨.localK, path⟩)
    else s) start

/-- The state after the end-of-input flushes of the unterminated code and
formula blocks. -/
def flushState (st : CState) : CState :=
  ⟨st.blocks ++ flushCodeB st ++ flushFormulaB st, st.imageTasks, st.inCode, st.codeLang,
    st.codeLines, st.inFormula, st.formulaLines, st.shotIdx, st.ctr⟩

/-- `_build_blocks_from_markdown`: returns the block list and the
temporary-id → media-task map. -/
def build_blocks (env : ClassEnv) (note videoUrl : List Char) (shots : List String) :
    List Block × List (String × MediaTask) :=
  let st := classifyState env note videoUrl shots
  let st2 := leftoverFold env (flushState st) (leftoverShots note shots)
  (st2.blocks, st2.imageTasks)

/-! ### Remote Block Tree Builder (`_append_blocks`) -/

/-- A batch-append response: remote status code, the
`block_id_relations` items and the confirmed `children`
(block type, block id). -/
structure AppendResp where
  code : Int
  relations : List (String × String)
  children : List (Nat × String)
deriving DecidableEq

/-- The network environment of `_append_blocks`: the response to the k-th
batch request, `none` modelling a network exception. -/
structure AppendEnv where
  resp : Nat → Option AppendResp

/-- Python dict assignment `relations[k] = v` on an insertion-ordered dict. -/
def setRel (k v : String) : List (String × String) → List (String × String)
  | [] => [(k, v)]
  | (k', v') :: rest => if k' = k then (k, v) :: rest else (k', v') :: setRel k v rest

/-- Record a batch's `block_id_relations`, skipping items with an empty
temporary or real id. -/
def addRelations (rels : List (String × String)) (items : List (String × String)) :
    List (String × String) :=
  items.foldl (fun acc it => if it.1 ≠ "" ∧ it.2 ≠ "" then setRel it.1 it.2 acc else acc) rels

/-- The ids of the confirmed children with `block_type == 27` (image). -/
def imageChildIds (children : List (Nat × String)) : List String :=
  (children.filter (fun c => c.1 = 27 ∧ c.2 ≠ "")).map Prod.snd

/-- `blocks[i : i + 30]` chunks, in order. -/
def chunkedGo : Nat → List Block → List (List Block)
  | _, [] => []
  | 0, l => [l]
  | fuel+1, l => l.take 30 :: chunkedGo fuel (l.drop 30)

/-- The batches of the `for i in range(0, len(blocks), chunk_size)` loop. -/
def chunked (l : List Block) : List (List Block) := chunkedGo l.length l

/-- The outcome of `_append_blocks`: success flag, accumulated id
relations, confirmed image block ids, and the trace of sent batch
requests (payload insertion index, chunk). -/
structure AppendOut where
  ok : Bool
  relations : List (String × String)
  imageIds : List String
  requests : List (Nat × List Block)
deriving DecidableEq

/-- The batch loop of `_append_blocks`: send each chunk with starting
index `30 * k`; stop at the first network exception or non-zero status. -/
def appendGo (env : AppendEnv) : List (List Block) → Nat → List (String × String) →
    List String → List (Nat × List Block) → AppendOut
  | [], _, rels, imgs, reqs => ⟨true, rels, imgs, reqs⟩
  | c :: rest, k, rels, imgs, reqs =>
    let reqs' := reqs ++ [(30 * k, c)]
    match env.resp k with
    | none => ⟨false, rels, imgs, reqs'⟩
    | some r =>
      if r.code ≠ 0 then ⟨false, rels, imgs, reqs'⟩
      else appendGo env rest (k+1) (addRelations rels r.relations)
        (imgs ++ imageChildIds r.children) reqs'

/-- `_append_blocks`. -/
def append_blocks (env : AppendEnv) (blocks : List Block) : AppendOut :=
  appendGo env (chunked blocks) 0 [] [] []

/-! ### Media Binding Resolver (`_bind_images`) -/

/-- The network/filesystem environment of `_bind_images`: the media upload
(returning a file token) and the image-block patch (returning whether the
patch succeeded).  A `none` / `false` result also models an exception at
the corresponding call site. -/
structure BindEnv where
  upload : MediaTask → String → Option String
  replaceImg : String → String → Bool

/-- `str.strip()` on a `String`. -/
def stripS (s : String) : String := String.mk (stripL s.toList)

/-- The outcome of `_bind_images`: the `(ok_count, fail_count)` pair and
the trace of upload attempts `(temp_id, block_id)`, in order. -/
structure BindOut where
  okCount : Nat
  failCount : Nat
  attempts : List (String × String)
deriving DecidableEq

/-- The shared body of both binding loops: check the task value, upload
the media scoped to the block, then patch the block.  Returns whether the
binding succeeded and the recorded upload attempt (empty when the task
value was blank, in which case no network call is made). -/
def bindOne (env : BindEnv) (tid : String) (t : MediaTask) (bid : String) :
    Bool × List (String × String) :=
  let v := stripS t.value
  if v = "" then (false, [])
  else
    match env.upload ⟨t.kind, v⟩ bid with
    | none => (false, [(tid, bid)])
    | some ft => (env.replaceImg bid ft, [(tid, bid)])

/-- The accumulator of the first `_bind_images` loop. -/
structure BindAcc where
  okCount : Nat
  failCount : Nat
  used : List String
  unresolved : List (String × MediaTask)
  attempts : List (String × String)
deriving DecidableEq

/-- One step of the first `_bind_images` loop: resolve the task's block id
through `block_id_relations`; a missing or empty id defers the task to the
fallback list, otherwise the block id is consumed and the task bound. -/
def bindStep (env : BindEnv) (rels : List (String × String)) (a : BindAcc)
    (p : String × MediaTask) : BindAcc :=
  let bid := (rels.lookup p.1).getD ""
  if bid = "" then ⟨a.okCount, a.failCount, a.used, a.unresolved ++ [p], a.attempts⟩
  else
    let r := bindOne env p.1 p.2 bid
    ⟨a.okCount + (if r.1 then 1 else 0), a.failCount + (if r.1 then 0 else 1),
      a.used ++ [bid], a.unresolved, a.attempts ++ r.2⟩

/-- The first `_bind_images` loop over the task map: bind the tasks whose
temporary id resolves through `block_id_relations`, collecting the
consumed block ids and the unresolved tasks in order. -/
def bindPhase1 (env : BindEnv) (rels : List (String × String))
    (tasks : List (String × MediaTask)) : BindAcc :=
  tasks.foldl (bindStep env rels) ⟨0, 0, [], [], []⟩

/-- One step of the fallback `_bind_images` loop. -/
def bindStep2 (env : BindEnv) (a : BindAcc) (pb : (String × MediaTask) × String) : BindAcc :=
  let r := bindOne env pb.1.1 pb.1.2 pb.2
  ⟨a.okCount + (if r.1 then 1 else 0), a.failCount + (if r.1 then 0 else 1),
    a.used, a.unresolved, a.attempts ++ r.2⟩

/-- The fallback `_bind_images` loop over `zip(unresolved, fallback_block_ids)`. -/
def bindPhase2 (env : BindEnv) (start : BindAcc)
    (pairs : List ((String × MediaTask) × String)) : BindAcc :=
  pairs.foldl (bindStep2 env) start

/-- `_bind_images`. -/
def bind_images (env : BindEnv) (rels : List (String × String))
    (tasks : List (String × MediaTask)) (appendedIds : List String) : BindOut :=
  if tasks.isEmpty then ⟨0, 0, []⟩
  else
    let a1 := bindPhase1 env rels tasks
    let fallback := appendedIds.filter (fun b => ¬ a1.used.contains b)
    let a2 := bindPhase2 env a1 (a1.unresolved.zip fallback)
    ⟨a2.okCount, a2.failCount + (a1.unresolved.length - fallback.length), a2.attempts⟩

/-! ### `push_note` pipeline -/

/-- The constructor-normalised configuration of `FeishuWikiPusher`. -/
structure PushConfig where
  app_id : String
  app_secret : String
  space_id : String
  parent_node_token : String
  title_prefix : String
  domain : String

/-- `is_config_ready`. -/
def is_config_ready (cfg : PushConfig) : Bool :=
  cfg.app_id ≠ "" && cfg.app_secret ≠ "" && cfg.space_id ≠ ""

/-- `_build_doc_url`. -/
def build_doc_url (cfg : PushConfig) (nodeToken : Option String) : String :=
  match nodeToken with
  | none => ""
  | some t =>
    if t = "" then ""
    else if cfg.domain = "lark" then "https://" ++ cfg.domain ++ ".com/wiki/" ++ t
    else "https://" ++ cfg.domain ++ ".cn/wiki/" ++ t

/-- The first line of the note whose `strip()` is non-empty, stripped. -/
def firstNonEmptyLine (note : List Char) : List Char :=
  (((splitLines note).map stripL).find? (fun l => ¬ l.isEmpty)).getD []

/-- An ASCII alphanumeric character (regex class `[0-9A-Za-z]`). -/
def isAlnumChar (c : Char) : Bool :=
  isDigitChar c || ('a' ≤ c && c ≤ 'z') || ('A' ≤ c && c ≤ 'Z')

/-- Python `"BV" in video_url`. -/
def hasBV : List Char → Bool
  | [] => false
  | c :: rest => (c = 'B' && headIs 'V' rest) || hasBV rest

/-- `re.search(r"(BV[0-9A-Za-z]+)", url)`: the leftmost `BV` followed by a
maximal non-empty alphanumeric run. -/
def bvSearchGo : Nat → List Char → Option (List Char)
  | _, [] => none
  | 0, _ => none
  | fuel+1, c :: rest =>
    if c = 'B' ∧ headIs 'V' rest then
      let run := (rest.drop 1).takeWhile isAlnumChar
      if run.isEmpty then bvSearchGo fuel rest else some ('B' :: 'V' :: run)
    else bvSearchGo fuel rest

/-- `_build_title`. -/
def build_title (cfg : PushConfig) (note videoUrl : List Char) : List Char :=
  let f0 := firstNonEmptyLine note
  let f1 := if headIs '#' f0 then
      stripL ((f0.dropWhile (fun c => c = '#')).dropWhile isSpaceChar)
    else f0
  let f2 := if f1.isEmpty then ("B站视频总结").toList else f1
  let f3 := if ¬ videoUrl.isEmpty ∧ hasBV videoUrl then
      match bvSearchGo videoUrl.length videoUrl with
      | some bv => f2 ++ (" [").toList ++ bv ++ [']']
      | none => f2
    else f2
  ((cfg.title_prefix.toList) ++ (" - ").toList ++ f3).take 100

/-- The sub-result of `_try_insert_mindmap_whiteboard`. -/
structure MindmapRes where
  attempted : Bool
  success : Bool
  skipped : Bool
deriving DecidableEq

/-- The detail map of a `PushResult`: a field of value `none` models a key
absent from the Python dict.  (`node_token` can be present holding `None`,
hence its doubled option.) -/
structure Detail where
  success : Bool
  error : Option String
  doc_id : Option String
  node_token : Option (Option String)
  doc_url : Option String
  images_ok : Option Nat
  images_fail : Option Nat
  image_tasks : Option Nat
  mindmap : Option MindmapRes
deriving DecidableEq

/-- The environment of one `push_note` call: all remote responses.
`mindmapOutcome` abstracts the whole of `_try_insert_mindmap_whiteboard`
past its empty-source early return (its sub-requests are not claimed). -/
structure PushEnv where
  classEnv : ClassEnv
  getToken : Option String
  createDoc : List Char → Option String × Option String
  rootBlock : Option String
  appendEnv : AppendEnv
  bindEnv : BindEnv
  mindmapOutcome : MindmapRes

/-- `_try_insert_mindmap_whiteboard`: empty diagram source is skipped
without any network call; otherwise the oracle decides the outcome. -/
def try_insert_mindmap (env : PushEnv) (mermaid : List Char) : MindmapRes :=
  if (stripL mermaid).isEmpty then ⟨true, false, true⟩ else env.mindmapOutcome

/-- The result of `push_note`: success flag, human message, detail map,
and the trace of batch-append requests actually sent. -/
structure PushOut where
  ok : Bool
  msg : String
  detail : Detail
  appendRequests : List (Nat × List Block)
deriving DecidableEq

/-- `push_note`: the full push pipeline with its short-circuiting failure
branches, mirrored step by step from the source. -/
def push_note (cfg : PushConfig) (env : PushEnv) (note videoUrl : List Char)
    (shots : List String) (mermaid : List Char) : PushOut :=
  if ¬ is_config_ready cfg then
    ⟨false, "飞书配置不完整（缺少 app_id/app_secret/space_id）",
      ⟨false, some "config_incomplete", none, none, none, none, none, none, none⟩, []⟩
  else if (stripL note).isEmpty then
    ⟨false, "总结内容为空",
      ⟨false, some "empty_note", none, none, none, none, none, none, none⟩, []⟩
  else
    let token := (env.getToken).getD ""
    if token = "" then
      ⟨false, "获取 tenant_access_token 失败",
        ⟨false, some "token_failed", none, none, none, none, none, none, none⟩, []⟩
    else
      let dn := env.createDoc (build_title cfg note videoUrl)
      let docId := (dn.1).getD ""
      if docId = "" then
        ⟨false, "创建飞书知识库文档失败",
          ⟨false, some "create_doc_failed", none, none, none, none, none, none, none⟩, []⟩
      else
        let nodeToken := dn.2
        let rootId := (env.rootBlock).getD ""
        if rootId = "" then
          ⟨false, "获取飞书文档根块失败",
            ⟨false, some "get_root_block_failed", some docId, some nodeToken,
              some (build_doc_url cfg nodeToken), none, none, none, none⟩, []⟩
        else
          let bt := build_blocks env.classEnv note videoUrl shots
          if bt.1.isEmpty then
            ⟨false, "生成飞书块内容失败",
              ⟨false, some "build_blocks_failed", some docId, some nodeToken,
                some (build_doc_url cfg nodeToken), none, none, none, none⟩, []⟩
          else
            let ap := append_blocks env.appendEnv bt.1
            if ap.ok = false then
              ⟨false, "写入飞书文档失败",
                ⟨false, some "append_blocks_failed", some docId, some nodeToken,
                  some (build_doc_url cfg nodeToken), none, none, none, none⟩, ap.requests⟩
            else
              let bo := bind_images env.bindEnv ap.relations bt.2 ap.imageIds
              let mm := try_insert_mindmap env mermaid
              let nts := match nodeToken with
                | some s => s
                | none => "None"
              let extra1 := if bt.2.isEmpty then ""
                else ", images_ok=" ++ Nat.repr bo.okCount ++ ", images_fail=" ++
                  Nat.repr bo.failCount
              let extra2 := if mm.attempted then
                  (if mm.skipped then ", mindmap=skipped"
                   else if mm.success then ", mindmap=ok" else ", mindmap=failed")
                else ""
              ⟨true,
                "推送成功，doc_id=" ++ docId ++ ", node_token=" ++ nts ++ extra1 ++ extra2,
                ⟨true, none, some docId, some nodeToken, some (build_doc_url cfg nodeToken),
                  some bo.okCount, some bo.failCount, some bt.2.length, some mm⟩,
                ap.requests⟩

/-! ## Theorems -/

/-! ### C9: adjacent runs with identical style are merged -/

/-- The style set of a run, when it has one (equation runs carry none). -/
def tstyle : Run → Option IStyle
  | .textRun _ st => some st
  | .eqRun _ => none

/-- No two consecutive runs of the sequence carry an identical style set. -/
def distinctAdjStyles (l : List Run) : Prop :=
  List.Chain' (fun a b => ∀ st st', tstyle a = some st → tstyle b = some st' → st ≠ st') l

theorem mergeStepRev_chain (acc : List Run) (r : Run)
    (h : List.Chain'
      (fun a b => ∀ st st', tstyle a = some st → tstyle b = some st' → st ≠ st') acc) :
    List.Chain'
      (fun a b => ∀ st st', tstyle a = some st → tstyle b = some st' → st ≠ st')
      (mergeStepRev acc r) := by
  cases r with
  | eqRun e =>
    simp only [mergeStepRev]
    refine List.chain'_cons'.mpr ⟨?_, h⟩
    intro y _ st st' hst
    simp [tstyle] at hst
  | textRun s st =>
    simp only [mergeStepRev]
    by_cases hs : s.isEmpty
    · simpa [hs] using h
    · simp only [hs, Bool.false_eq_true, if_false]
      match acc, h with
      | [], _ => simp
      | .eqRun e :: tl, h =>
        refine List.chain'_cons'.mpr ⟨?_, h⟩
        intro y hy st1 st2 h1 h2
        simp only [List.head?, Option.mem_def, Option.some.injEq] at hy
        subst hy
        simp [tstyle] at h2
      | .textRun s' st' :: tl, h =>
        by_cases he : st' = st
        · simp only [he, if_true]
          rcases List.chain'_cons'.mp h with ⟨hh, ht⟩
          refine List.chain'_cons'.mpr ⟨?_, ht⟩
          intro y hy st1 st2 h1 h2
          exact hh y hy st1 st2 (by simpa [tstyle, he] using h1) h2
        · simp only [he, if_false]
          refine List.chain'_cons'.mpr ⟨?_, h⟩
          intro y hy st1 st2 h1 h2
          simp [tstyle] at h1 h2
          subst h1
          cases y with
          | textRun s2 st2' =>
            simp [tstyle] at h2
            subst h2
            simp at hy
            rw [← hy.2]
            exact fun e => he e.symm
          | eqRun e2 => simp [tstyle] at h2

theorem mergeFold_chain (l : List Run) : ∀ acc : List Run,
    List.Chain'
      (fun a b => ∀ st st', tstyle a = some st → tstyle b = some st' → st ≠ st') acc →
    List.Chain'
      (fun a b => ∀ st st', tstyle a = some st → tstyle b = some st' → st ≠ st')
      (l.foldl mergeStepRev acc) := by
  induction l with
  | nil => intro acc h; exact h
  | cons r t ih =>
    intro acc h
    simpa using ih (mergeStepRev acc r) (mergeStepRev_chain acc r h)

theorem mergeRuns_chain (l : List Run) : distinctAdjStyles (mergeRuns l) := by
  unfold distinctAdjStyles mergeRuns
  rw [List.chain'_reverse]
  refine List.Chain'.imp ?_ (mergeFold_chain l [] (by simp))
  intro a b hab st st' h1 h2
  exact fun e => hab st' st h2 h1 e.symm

/-- Claim C9: in the run sequence the inline tokenizer emits for any
input, adjacent runs with an identical style set are merged before
emission — no two consecutive runs of `tokenize_inline`'s output share an
identical style set (equation runs, as in the data model, carry no style
set). -/
theorem C9_no_adjacent_identical_styles (cs : List Char) :
    distinctAdjStyles (tokenize_inline cs) := by
  unfold tokenize_inline
  exact mergeRuns_chain _

/-! ### C10: the Media Binding Resolver accounts for every task once -/

theorem bindStep_count (env : BindEnv) (rels : List (String × String))
    (a : BindAcc) (p : String × MediaTask) :
    (bindStep env rels a p).okCount + (bindStep env rels a p).failCount +
        (bindStep env rels a p).unresolved.length =
      a.okCount + a.failCount + a.unresolved.length + 1 := by
  unfold bindStep
  by_cases hb : ((rels.lookup p.1).getD "") = "" <;>
    by_cases hr : (bindOne env p.1 p.2 ((rels.lookup p.1).getD "")).1 <;>
      simp [hb, hr] <;> omega

theorem bindFold1_count (env : BindEnv) (rels : List (String × String))
    (tasks : List (String × MediaTask)) : ∀ acc : BindAcc,
    (tasks.foldl (bindStep env rels) acc).okCount +
        (tasks.foldl (bindStep env rels) acc).failCount +
        (tasks.foldl (bindStep env rels) acc).unresolved.length =
      acc.okCount + acc.failCount + acc.unresolved.length + tasks.length := by
  induction tasks with
  | nil => intro acc; simp
  | cons p t ih =>
    intro acc
    simp only [List.foldl_cons, List.length_cons]
    rw [ih (bindStep env rels acc p), bindStep_count]
    omega

theorem bindPhase2_count (env : BindEnv)
    (pairs : List ((String × MediaTask) × String)) : ∀ acc : BindAcc,
    (bindPhase2 env acc pairs).okCount + (bindPhase2 env acc pairs).failCount =
      acc.okCount + acc.failCount + pairs.length := by
  induction pairs with
  | nil => intro acc; simp [bindPhase2]
  | cons pb t ih =>
    intro acc
    simp only [bindPhase2, List.foldl_cons, List.length_cons] at ih ⊢
    rw [ih (bindStep2 env acc pb)]
    unfold bindStep2
    by_cases hr : (bindOne env pb.1.1 pb.1.2 pb.2).1 <;> simp [hr] <;> omega

/-- Claim C10: `_bind_images` accounts for every media task exactly once:
`ok_count + fail_count` equals the number of entries of the media-task
map, and on an empty task map it returns `(0, 0)` without performing any
network call (empty attempt trace). -/
theorem C10_bind_images_accounting (env : BindEnv) (rels : List (String × String))
    (tasks : List (String × MediaTask)) (appendedIds : List String) :
    (bind_images env rels tasks appendedIds).okCount +
        (bind_images env rels tasks appendedIds).failCount = tasks.length ∧
      bind_images env rels [] appendedIds = ⟨0, 0, []⟩ := by
  constructor
  · by_cases h : tasks.isEmpty
    · rw [List.isEmpty_eq_true] at h
      subst h
      simp [bind_images]
    · simp only [bind_images, h, Bool.false_eq_true, if_false]
      set a1 := bindPhase1 env rels tasks with ha1
      set fb := appendedIds.filter (fun b => ¬ a1.used.contains b) with hfb
      set a2 := bindPhase2 env a1 (a1.unresolved.zip fb) with ha2
      have h1 : a1.okCount + a1.failCount + a1.unresolved.length = tasks.length := by
        rw [ha1]
        unfold bindPhase1
        simpa using bindFold1_count env rels tasks ⟨0, 0, [], [], []⟩
      have h2 : a2.okCount + a2.failCount =
          a1.okCount + a1.failCount + min a1.unresolved.length fb.length := by
        rw [ha2, bindPhase2_count, List.length_zip]
      omega
  · simp [bind_images]

/-! ### C1: concatenating run texts vs the input text -/

/-- The inline style delimiter characters of the tokenizer's regex. -/
def styleDelims : List Char := [btick, '*', '_', '~', '$']

theorem tryMatch_none_of_head (c : Char) (rest : List Char) (h : c ∉ styleDelims) :
    tryMatch (c :: rest) = none := by
  simp only [styleDelims, List.mem_cons, List.mem_singleton, not_or] at h
  obtain ⟨hb, hs, hu, ht, hd, -⟩ := h
  cases rest with
  | nil =>
    simp [tryMatch, altCode, altDouble, altSingle, hb, hs, hu, ht, hd, Option.orElse]
  | cons d r =>
    simp [tryMatch, altCode, altDouble, altSingle, hb, hs, hu, ht, hd, Option.orElse]

theorem tokGo_no_delims (cs : List Char) : ∀ (fuel : Nat) (pending : List Char),
    cs.length ≤ fuel → (∀ c ∈ cs, c ∉ styleDelims) →
    tokGo fuel cs pending = flushPending (pending ++ cs) := by
  induction cs with
  | nil => intro fuel pending _ _; cases fuel <;> simp [tokGo]
  | cons c rest ih =>
    intro fuel pending hf hd
    cases fuel with
    | zero => simp at hf
    | succ f =>
      have hc : c ∉ styleDelims := hd c (by simp)
      simp only [tokGo, tryMatch_none_of_head c rest hc]
      rw [ih f (pending ++ [c]) (by simpa using hf) (fun x hx => hd x (by simp [hx]))]
      simp

theorem concat_merge_flush (l : List Char) :
    concatRunText (mergeRuns (flushPending l)) = l := by
  by_cases h : l.isEmpty
  · rw [List.isEmpty_eq_true] at h
    subst h
    simp [flushPending, mergeRuns, concatRunText]
  · simp [flushPending, h, mergeRuns, mergeStepRev, concatRunText, runText]

theorem linkDegradeGo_mem : ∀ (fuel : Nat) (l : List Char) (c : Char),
    c ∈ linkDegradeGo fuel l → c ∈ l ∨ c = ' ' ∨ c = '(' ∨ c = ')' := by
  intro fuel
  induction fuel with
  | zero => intro l c hc; cases l <;> simp [linkDegradeGo] at hc <;> simp [hc]
  | succ f ih =>
    intro l c hc
    cases l with
    | nil => simp [linkDegradeGo] at hc
    | cons a rest =>
      simp only [linkDegradeGo] at hc
      cases hm : matchLink (a :: rest) with
      | none =>
        rw [hm] at hc
        simp only [List.mem_cons] at hc
        rcases hc with hc | hc
        · left; simp [hc]
        · rcases ih rest c hc with h | h
          · left; simp [h]
          · right; exact h
      | some v =>
        obtain ⟨k, sl, j⟩ := v
        rw [hm] at hc
        simp only [List.mem_append, List.mem_cons, List.mem_singleton, or_assoc] at hc
        rcases hc with hc | hc | hc | hc | hc | hc
        · left; exact List.mem_of_mem_drop (List.mem_of_mem_take hc)
        · right; left; exact hc
        · right; right; left; exact hc
        · left; exact List.mem_of_mem_drop (List.mem_of_mem_take hc)
        · right; right; right; exact hc
        · rcases hc with hc | hc
          · simp at hc
          · rcases ih _ c hc with h | h
            · left; exact List.mem_of_mem_drop h
            · right; exact h

theorem linkDegrade_no_delims (l : List Char) (h : ∀ c ∈ l, c ∉ styleDelims) :
    ∀ c ∈ linkDegrade l, c ∉ styleDelims := by
  intro c hc
  rcases linkDegradeGo_mem l.length l c hc with h1 | h1 | h1 | h1
  · exact h c h1
  all_goals subst h1; decide

/-- Claim C1 (amended): for an input line containing none of the inline
style delimiter characters, concatenating the text of all runs the inline
tokenizer returns reproduces the input text with only the
link-degradation transform applied.  (In general the delimiters of each
matched style span are stripped from the run texts, so the original claim
fails; see the counterexample.) -/
theorem C1_roundtrip_without_delims (line : List Char)
    (h : ∀ c ∈ line, c ∉ styleDelims) :
    concatRunText (tokenize_inline (linkDegrade line)) = linkDegrade line := by
  unfold tokenize_inline
  rw [tokGo_no_delims (linkDegrade line) (linkDegrade line).length []
    (le_refl _) (linkDegrade_no_delims line h)]
  simpa using concat_merge_flush (linkDegrade line)

/-- Claim C1, as stated, is false: on the line `**a**` the tokenizer
returns the single bold run `a`, so the concatenation of run texts is `a`,
not the input (the `**` delimiters are lost). -/
theorem C1_counterexample :
    ¬ (concatRunText (tokenize_inline (linkDegrade (("**a**").toList))) =
        linkDegrade (("**a**").toList)) := by
  decide

theorem C1_witness :
    (∀ c ∈ ("hello, world.").toList, c ∉ styleDelims) ∧
      concatRunText (tokenize_inline (linkDegrade (("hello, world.").toList))) =
        linkDegrade (("hello, world.").toList) :=
  ⟨by decide, C1_roundtrip_without_delims _ (by decide)⟩

/-! ### C2: the two modal states of the classifier -/

/-- A concrete classifier environment on which no file exists. -/
def cexEnv : ClassEnv := ⟨fun _ => false⟩

/-- Claim C2, as stated, is false: on the input `$$` newline ``` ``` ``` the
`$$` line opens the block formula and the following ``` ``` ``` line — whose
fence check runs before the formula-state check — opens a fenced code
block, leaving BOTH modal states simultaneously active. -/
theorem C2_counterexample :
    (classifyState cexEnv (("$$\n```").toList) [] []).inCode = true ∧
      (classifyState cexEnv (("$$\n```").toList) [] []).inFormula = true := by
  decide

/-- Claim C2 (amended): one direction of the claim does hold — a `$$` line
encountered while inside a fenced code block is treated as literal code
content (appended to the fence content, with no state change).  The other
direction fails: a ``` ``` ``` line inside a block formula opens a code
block, so the two modal states can be simultaneously active (see the
counterexample). -/
theorem C2_dollar_in_code_is_literal (env : ClassEnv) (imap : List (Nat × List String))
    (st : CState) (line : List Char) (hc : st.inCode = true)
    (hl : stripL line = ['$', '$']) :
    procLine env imap st line = stSetCode st true st.codeLang (st.codeLines ++ [line]) := by
  simp only [procLine, hl]
  rw [show fenceMatch ['$', '$'] = none from rfl]
  simp [hc]

/-- A classifier state inside a fenced code block. -/
def stInCode : CState := ⟨[], [], true, [], [], false, [], 0, 0⟩

theorem C2_witness :
    (stInCode.inCode = true ∧ stripL (("$$").toList) = ['$', '$']) ∧
      procLine cexEnv [] stInCode (("$$").toList) =
        stSetCode stInCode true stInCode.codeLang
          (stInCode.codeLines ++ [("$$").toList]) :=
  ⟨⟨rfl, by decide⟩, C2_dollar_in_code_is_literal cexEnv [] stInCode _ rfl (by decide)⟩

/-! ### C8: unterminated fenced code blocks are flushed -/

/-- The number of `CodeBlock`s in a block list. -/
def countCodeB (l : List Block) : Nat :=
  l.countP (fun b => match b with | Block.codeB _ _ => true | _ => false)

theorem countCodeB_append (l l' : List Block) :
    countCodeB (l ++ l') = countCodeB l + countCodeB l' := by
  unfold countCodeB
  exact List.countP_append _ _ _

theorem leftoverFold_blocks (env : ClassEnv) (rem : List String) : ∀ st : CState,
    ∃ tail : List Block, (leftoverFold env st rem).blocks = st.blocks ++ tail ∧
      countCodeB tail = 0 := by
  induction rem with
  | nil => intro st; exact ⟨[], by simp [leftoverFold], rfl⟩
  | cons p t ih =>
    intro st
    by_cases hf : env.fileExists p
    · obtain ⟨tail, h1, h2⟩ := ih
        (stIncCtr (stAddTask (stPush st (Block.imgB ("simg_" ++ Nat.repr st.ctr)))
          ("simg_" ++ Nat.repr st.ctr) ⟨.localK, p⟩))
      refine ⟨Block.imgB ("simg_" ++ Nat.repr st.ctr) :: tail, ?_, ?_⟩
      · simp only [leftoverFold, List.foldl_cons, hf, if_true] at h1 ⊢
        simpa [stIncCtr, stAddTask, stPush] using h1
      · simpa [countCodeB] using h2
    · obtain ⟨tail, h1, h2⟩ := ih st
      refine ⟨tail, ?_, h2⟩
      simp only [leftoverFold, List.foldl_cons, hf] at h1 ⊢
      simpa using h1

theorem countCodeB_flushFormula (st : CState) : countCodeB (flushFormulaB st) = 0 := by
  unfold flushFormulaB
  split
  · show countCodeB (if (stripL (joinNL st.formulaLines)).isEmpty = true then []
      else [Block.eqB (stripL (joinNL st.formulaLines))]) = 0
    split
    · rfl
    · rfl
  · rfl

/-- Claim C8 (amended): when the input leaves the classifier inside an
unterminated fenced code block whose accumulated content is non-empty
after stripping, the block list the classifier emits is its main-loop
output followed by exactly one `CodeBlock` carrying that accumulated
content (the flush), with no further `CodeBlock` after it.  (When the
accumulated content strips to empty — e.g. a fence opened with no content
lines — the flush emits nothing, so the original claim fails; see the
counterexample.) -/
theorem C8_unterminated_fence_flushed (env : ClassEnv) (note videoUrl : List Char)
    (shots : List String) (st : CState) (c : List Char)
    (hst : st = classifyState env note videoUrl shots)
    (hin : st.inCode = true)
    (hcc : stripL (joinNL st.codeLines) = c) (hne : c ≠ []) :
    ∃ tail : List Block,
      (build_blocks env note videoUrl shots).1 =
        st.blocks ++ Block.codeB c (map_code_language st.codeLang) :: tail ∧
      countCodeB tail = 0 ∧
      countCodeB (build_blocks env note videoUrl shots).1 = countCodeB st.blocks + 1 := by
  have hlines : ¬ st.codeLines.isEmpty := by
    intro h
    rw [List.isEmpty_eq_true] at h
    rw [h] at hcc
    exact hne (by simpa [joinNL, stripL] using hcc.symm)
  have hflush : flushCodeB st = [Block.codeB c (map_code_language st.codeLang)] := by
    unfold flushCodeB
    rw [hcc]
    simp [hin, hlines, hne]
  obtain ⟨tail, h1, h2⟩ := leftoverFold_blocks env (leftoverShots note shots) (flushState st)
  refine ⟨flushFormulaB st ++ tail, ?_, ?_, ?_⟩
  · simp only [build_blocks]
    rw [← hst, h1]
    simp [flushState, hflush]
  · rw [countCodeB_append, countCodeB_flushFormula, h2]
  · simp only [build_blocks]
    rw [← hst, h1]
    simp only [flushState, hflush]
    simp only [countCodeB_append, countCodeB_flushFormula, h2]
    simp [countCodeB]

/-- Claim C8, as stated, is false: the input consisting of the single line
``` ``` ``` opens a fenced code block that is never closed, yet the
classifier emits no `CodeBlock` at all (the accumulated content is empty,
and the end-of-input flush drops empty content). -/
theorem C8_counterexample :
    (classifyState cexEnv (("```").toList) [] []).inCode = true ∧
      countCodeB ((build_blocks cexEnv (("```").toList) [] []).1) = 0 := by
  decide

theorem C8_witness :
    ((classifyState cexEnv (("```\nabc").toList) [] []).inCode = true ∧
      stripL (joinNL (classifyState cexEnv (("```\nabc").toList) [] []).codeLines) =
        ("abc").toList ∧ ("abc").toList ≠ ([] : List Char)) ∧
    (∃ tail : List Block,
      (build_blocks cexEnv (("```\nabc").toList) [] []).1 =
        (classifyState cexEnv (("```\nabc").toList) [] []).blocks ++
          Block.codeB (("abc").toList)
            (map_code_language (classifyState cexEnv (("```\nabc").toList) [] []).codeLang) ::
            tail ∧
      countCodeB tail = 0 ∧
      countCodeB ((build_blocks cexEnv (("```\nabc").toList) [] []).1) =
        countCodeB (classifyState cexEnv (("```\nabc").toList) [] []).blocks + 1) :=
  ⟨⟨by decide, by decide, by decide⟩,
    C8_unterminated_fence_flushed cexEnv _ _ _ _ _ rfl (by decide) (by decide) (by decide)⟩

/-! ### C3: the Asset Placement Planner scenario -/

/-- The scenario input of claim C3. -/
def note3 : List Char := ("# Title\n\n## Sec A\ntext\n\n## Sec B\nmore").toList

/-- Claim C3, as stated, is false: the planner's map has no key 0 on the
scenario input — the heading-occurrence counter counts ALL heading lines
(the level-1 title included), so the two level-2 headings occupy indices
1 and 2, not 0 and 1. -/
theorem C3_counterexample :
    (build_screenshot_insert_map note3 ["p1", "p2"]).lookup 0 = none ∧
      build_screenshot_insert_map note3 ["p1", "p2"] ≠ [(0, ["p1"]), (1, ["p2"])] := by
  decide

/-- Claim C3 (amended): on the scenario input with two screenshot paths
the planner returns `{1: [path1], 2: [path2]}` — the map's keys are
0-based occurrence indices counting ALL headings (any level) in document
order, the level-1 title occupying index 0; path1 is assigned to the
first level-2 heading and path2 to the second. -/
theorem C3_scenario_map (p1 p2 : String) :
    build_screenshot_insert_map note3 [p1, p2] = [(1, [p1]), (2, [p2])] := by
  with_unfolding_all rfl

/-! ### C4: batch append framing -/

/-- The expected batch requests for a chunk list whose first batch number
is `k`: the batch numbered `k` carries insertion index `30 * k`. -/
def chunkReqs (k : Nat) : List (List Block) → List (Nat × List Block)
  | [] => []
  | c :: rest => (30 * k, c) :: chunkReqs (k + 1) rest

theorem chunkedGo_spec : ∀ (fuel : Nat) (l : List Block), l.length ≤ fuel →
    (chunkedGo fuel l).flatten = l ∧
    (∀ c ∈ chunkedGo fuel l, c ≠ [] ∧ c.length ≤ 30) ∧
    (∀ c ∈ (chunkedGo fuel l).dropLast, c.length = 30) := by
  intro fuel
  induction fuel with
  | zero =>
    intro l hl
    have : l = [] := List.eq_nil_of_length_eq_zero (Nat.le_zero.mp hl)
    subst this
    refine ⟨rfl, ?_, ?_⟩ <;> intro c hc <;> simp [chunkedGo] at hc
  | succ f ih =>
    intro l hl
    cases l with
    | nil => refine ⟨rfl, ?_, ?_⟩ <;> intro c hc <;> simp [chunkedGo] at hc
    | cons x xs =>
      have hlen : ((x :: xs).drop 30).length ≤ f := by
        simp only [List.length_drop, List.length_cons]
        simp only [List.length_cons] at hl
        omega
      obtain ⟨ihf, ihsz, ihdl⟩ := ih ((x :: xs).drop 30) hlen
      have heq : chunkedGo (f + 1) (x :: xs) =
          (x :: xs).take 30 :: chunkedGo f ((x :: xs).drop 30) := rfl
      refine ⟨?_, ?_, ?_⟩
      · rw [heq]
        simp only [List.flatten_cons, ihf, List.take_append_drop]
      · rw [heq]
        intro c hc
        rcases List.mem_cons.mp hc with hc | hc
        · subst hc
          constructor
          · simp
          · simp only [List.length_take]
            omega
        · exact ihsz c hc
      · rw [heq]
        by_cases hd : (x :: xs).drop 30 = []
        · rw [hd] at ihf ⊢
          have : chunkedGo f [] = [] := by cases f <;> rfl
          rw [this]
          intro c hc
          simp at hc
        · have hne : chunkedGo f ((x :: xs).drop 30) ≠ [] := by
            intro e
            rw [e] at ihf
            exact hd ihf.symm
          rw [List.dropLast_cons_of_ne_nil hne]
          intro c hc
          rcases List.mem_cons.mp hc with hc | hc
          · subst hc
            have h30 : 30 < (x :: xs).length := by
              by_contra hle
              push_neg at hle
              exact hd (List.drop_eq_nil_of_le hle)
            simp only [List.length_take]
            omega
          · exact ihdl c hc

theorem chunked_spec (blocks : List Block) :
    (chunked blocks).flatten = blocks ∧
    (∀ c ∈ chunked blocks, c ≠ [] ∧ c.length ≤ 30) ∧
    (∀ c ∈ (chunked blocks).dropLast, c.length = 30) :=
  chunkedGo_spec blocks.length blocks (le_refl _)

theorem chunkReqs_snd : ∀ (chunks : List (List Block)) (k : Nat),
    (chunkReqs k chunks).map Prod.snd = chunks := by
  intro chunks
  induction chunks with
  | nil => intro k; rfl
  | cons c rest ih => intro k; simp [chunkReqs, ih (k + 1)]

theorem chunkReqs_fst : ∀ (chunks : List (List Block)) (k : Nat),
    (chunkReqs k chunks).map Prod.fst =
      (List.range chunks.length).map (fun j => 30 * (k + j)) := by
  intro chunks
  induction chunks with
  | nil => intro k; rfl
  | cons c rest ih =>
    intro k
    simp only [chunkReqs, List.map_cons, List.length_cons, List.range_succ_eq_map,
      List.map_map]
    refine List.cons_eq_cons.mpr ⟨by omega, ?_⟩
    rw [ih (k + 1)]
    apply List.map_congr_left
    intro j hj
    simp only [Function.comp]
    omega

theorem appendGo_all_ok (env : AppendEnv) : ∀ (chunks : List (List Block)) (k : Nat)
    (rels : List (String × String)) (imgs : List String) (reqs : List (Nat × List Block)),
    (∀ j, j < chunks.length → ∃ r, env.resp (k + j) = some r ∧ r.code = 0) →
    (appendGo env chunks k rels imgs reqs).ok = true ∧
    (appendGo env chunks k rels imgs reqs).requests = reqs ++ chunkReqs k chunks := by
  intro chunks
  induction chunks with
  | nil => intro k rels imgs reqs _; simp [appendGo, chunkReqs]
  | cons c rest ih =>
    intro k rels imgs reqs hresp
    obtain ⟨r, hr, hc0⟩ := hresp 0 (by simp)
    rw [Nat.add_zero] at hr
    have hrec := ih (k + 1) (addRelations rels r.relations) (imgs ++ imageChildIds r.children)
      (reqs ++ [(30 * k, c)])
      (fun j hj => by
        have := hresp (j + 1) (by simpa using Nat.succ_lt_succ hj)
        rwa [show k + (j + 1) = k + 1 + j by omega] at this)
    simp only [appendGo, hr, hc0, ne_eq, not_true_eq_false, if_false, ite_false]
    refine ⟨hrec.1, ?_⟩
    rw [hrec.2]
    simp [chunkReqs]

/-- Claim C4: `_append_blocks` sends the block list in batches of exactly
30 (only the final batch may be smaller, and no batch is empty), in
original order, the k-th batch request carrying starting insertion index
`30 * k` — stated for a run in which every batch succeeds. -/
theorem C4_batching (env : AppendEnv) (blocks : List Block)
    (h : ∀ j, j < (chunked blocks).length → ∃ r, env.resp j = some r ∧ r.code = 0) :
    (append_blocks env blocks).ok = true ∧
    (append_blocks env blocks).requests = chunkReqs 0 (chunked blocks) ∧
    ((append_blocks env blocks).requests.map Prod.snd).flatten = blocks ∧
    (append_blocks env blocks).requests.map Prod.fst =
      (List.range (chunked blocks).length).map (fun j => 30 * j) ∧
    (∀ c ∈ ((append_blocks env blocks).requests.map Prod.snd).dropLast, c.length = 30) ∧
    (∀ c ∈ (append_blocks env blocks).requests.map Prod.snd, 1 ≤ c.length ∧ c.length ≤ 30) := by
  obtain ⟨hok, hreq⟩ := appendGo_all_ok env (chunked blocks) 0 [] [] []
    (fun j hj => by simpa using h j hj)
  have hreq' : (append_blocks env blocks).requests = chunkReqs 0 (chunked blocks) := by
    simpa [append_blocks] using hreq
  obtain ⟨hf, hsz, hdl⟩ := chunked_spec blocks
  refine ⟨by simpa [append_blocks] using hok, hreq', ?_, ?_, ?_, ?_⟩
  · rw [hreq', chunkReqs_snd, hf]
  · rw [hreq', chunkReqs_fst]
    simp
  · rw [hreq', chunkReqs_snd]
    exact hdl
  · rw [hreq', chunkReqs_snd]
    intro c hc
    obtain ⟨h1, h2⟩ := hsz c hc
    exact ⟨List.length_pos.mpr h1, h2⟩

/-- A response environment on which every batch succeeds. -/
def envOK : AppendEnv := ⟨fun _ => some ⟨0, [], []⟩⟩

/-- A 65-block list, as in the claim's scenario. -/
def blocks65 : List Block := List.replicate 65 (Block.textB [])

theorem C4_witness :
    (∀ j, j < (chunked blocks65).length → ∃ r, envOK.resp j = some r ∧ r.code = 0) ∧
    ((append_blocks envOK blocks65).ok = true ∧
      (append_blocks envOK blocks65).requests = chunkReqs 0 (chunked blocks65) ∧
      ((append_blocks envOK blocks65).requests.map Prod.snd).flatten = blocks65 ∧
      (append_blocks envOK blocks65).requests.map Prod.fst =
        (List.range (chunked blocks65).length).map (fun j => 30 * j) ∧
      (∀ c ∈ ((append_blocks envOK blocks65).requests.map Prod.snd).dropLast,
        c.length = 30) ∧
      (∀ c ∈ (append_blocks envOK blocks65).requests.map Prod.snd,
        1 ≤ c.length ∧ c.length ≤ 30)) ∧
    (append_blocks envOK blocks65).requests.map Prod.fst = [0, 30, 60] ∧
    (chunked blocks65).length = 3 :=
  ⟨fun j _ => ⟨⟨0, [], []⟩, rfl, rfl⟩,
    C4_batching envOK blocks65 (fun j _ => ⟨⟨0, [], []⟩, rfl, rfl⟩),
    by decide, by decide⟩

/-! ### C5: a failing batch aborts the push -/

theorem appendGo_fail (env : AppendEnv) : ∀ (chunks : List (List Block)) (j k : Nat)
    (rels : List (String × String)) (imgs : List String) (reqs : List (Nat × List Block)),
    j < chunks.length →
    (∀ i, i < j → ∃ r, env.resp (k + i) = some r ∧ r.code = 0) →
    (env.resp (k + j) = none ∨ ∃ r, env.resp (k + j) = some r ∧ r.code ≠ 0) →
    (appendGo env chunks k rels imgs reqs).ok = false ∧
    (appendGo env chunks k rels imgs reqs).requests =
      reqs ++ chunkReqs k (chunks.take (j + 1)) := by
  intro chunks
  induction chunks with
  | nil => intro j k rels imgs reqs hj; simp at hj
  | cons c rest ih =>
    intro j k rels imgs reqs hj hgood hbad
    cases j with
    | zero =>
      rw [Nat.add_zero] at hbad
      rcases hbad with hb | ⟨r, hr, hc⟩
      · simp [appendGo, hb, chunkReqs]
      · simp [appendGo, hr, hc, chunkReqs]
    | succ j' =>
      obtain ⟨r, hr, hc0⟩ := hgood 0 (by omega)
      rw [Nat.add_zero] at hr
      have hrec := ih j' (k + 1) (addRelations rels r.relations)
        (imgs ++ imageChildIds r.children) (reqs ++ [(30 * k, c)])
        (by simpa using Nat.lt_of_succ_lt_succ hj)
        (fun i hi => by
          have := hgood (i + 1) (by omega)
          rwa [show k + (i + 1) = k + 1 + i by omega] at this)
        (by rwa [show k + 1 + j' = k + (j' + 1) by omega])
      simp only [appendGo, hr, hc0, ne_eq, not_true_eq_false, if_false, ite_false]
      refine ⟨hrec.1, ?_⟩
      rw [hrec.2]
      simp [chunkReqs]

/-- Claim C5: if any batch append request fails (network exception or
non-zero remote status code) — earlier batches having succeeded — no
further batches are sent (the request trace stops at the failing batch)
and `push_note` returns `success = false` with error code
`append_blocks_failed`, the detail map still carrying the doc id, node
token and document URL obtained at document-creation time. -/
theorem C5_append_failure_shortcircuits
    (cfg : PushConfig) (env : PushEnv) (note videoUrl : List Char) (shots : List String)
    (mermaid : List Char) (tok docId : String) (nt : Option String) (rootId : String) (j : Nat)
    (hcfg : is_config_ready cfg = true)
    (hnote : ¬ (stripL note).isEmpty = true)
    (htok : env.getToken = some tok) (htok2 : ¬ tok = "")
    (hdoc : env.createDoc (build_title cfg note videoUrl) = (some docId, nt))
    (hdoc2 : ¬ docId = "")
    (hroot : env.rootBlock = some rootId) (hroot2 : ¬ rootId = "")
    (hblocks : ¬ ((build_blocks env.classEnv note videoUrl shots).1.isEmpty = true))
    (hj : j < (chunked (build_blocks env.classEnv note videoUrl shots).1).length)
    (hgood : ∀ i, i < j → ∃ r, env.appendEnv.resp i = some r ∧ r.code = 0)
    (hbad : env.appendEnv.resp j = none ∨
      ∃ r, env.appendEnv.resp j = some r ∧ r.code ≠ 0) :
    push_note cfg env note videoUrl shots mermaid =
      ⟨false, "写入飞书文档失败",
        ⟨false, some "append_blocks_failed", some docId, some nt,
          some (build_doc_url cfg nt), none, none, none, none⟩,
        chunkReqs 0 ((chunked (build_blocks env.classEnv note videoUrl shots).1).take (j + 1))⟩ := by
  obtain ⟨hfok, hfreq⟩ := appendGo_fail env.appendEnv
    (chunked (build_blocks env.classEnv note videoUrl shots).1) j 0 [] [] [] hj
    (fun i hi => by simpa using hgood i hi) (by simpa using hbad)
  simp only [push_note, hcfg, hnote, htok, hdoc, hroot, Option.getD_some, htok2, hdoc2,
    hroot2, hblocks, not_true_eq_false, if_false, ite_false, Bool.not_true]
  simp only [append_blocks]
  simp only [hfok, hfreq, List.nil_append]
  simp

/-- A concrete configuration for the C5 witness. -/
def cfg5 : PushConfig := ⟨"app", "sec", "spc", "", "BiliBrief纪要", "feishu"⟩

/-- A concrete push environment whose very first batch append fails with a
network exception, everything earlier succeeding. -/
def env5 : PushEnv :=
  ⟨cexEnv, some "tok", fun _ => (some "doc1", some "node1"), some "root1",
    ⟨fun _ => none⟩, ⟨fun _ _ => none, fun _ _ => false⟩, ⟨true, false, false⟩⟩

theorem C5_witness :
    (is_config_ready cfg5 = true ∧
      ¬ (stripL (("hello").toList)).isEmpty = true ∧
      env5.getToken = some "tok" ∧ ¬ ("tok" : String) = "" ∧
      env5.createDoc (build_title cfg5 (("hello").toList) []) = (some "doc1", some "node1") ∧
      ¬ ("doc1" : String) = "" ∧
      env5.rootBlock = some "root1" ∧ ¬ ("root1" : String) = "" ∧
      ¬ ((build_blocks env5.classEnv (("hello").toList) [] []).1.isEmpty = true) ∧
      0 < (chunked (build_blocks env5.classEnv (("hello").toList) [] []).1).length ∧
      (env5.appendEnv.resp 0 = none ∨
        ∃ r, env5.appendEnv.resp 0 = some r ∧ r.code ≠ 0)) ∧
    push_note cfg5 env5 (("hello").toList) [] [] [] =
      ⟨false, "写入飞书文档失败",
        ⟨false, some "append_blocks_failed", some "doc1", some (some "node1"),
          some (build_doc_url cfg5 (some "node1")), none, none, none, none⟩,
        chunkReqs 0 ((chunked (build_blocks env5.classEnv (("hello").toList) [] []).1).take 1)⟩ :=
  ⟨⟨by decide, by decide, rfl, by decide, rfl, by decide, rfl, by decide, by decide,
      by decide, Or.inl rfl⟩,
    C5_append_failure_shortcircuits cfg5 env5 (("hello").toList) [] [] [] "tok" "doc1"
      (some "node1") "root1" 0 (by decide) (by decide) rfl (by decide) rfl (by decide) rfl
      (by decide) (by decide) (by decide)
      (fun i hi => absurd hi (Nat.not_lt_zero i)) (Or.inl rfl)⟩

/-! ### C6: Asset Placement Planner distribution -/

theorem natRoundDiv_ge_div (a b : Nat) : a / b ≤ natRoundDiv a b := by
  simp only [natRoundDiv]
  split_ifs <;> omega

theorem natRoundDiv_le_div_succ (a b : Nat) : natRoundDiv a b ≤ a / b + 1 := by
  simp only [natRoundDiv]
  split_ifs <;> omega

theorem natRoundDiv_le (a b c : Nat) (hb : 0 < b) (h : a ≤ c * b) :
    natRoundDiv a b ≤ c := by
  have hq : a / b ≤ c :=
    le_trans (Nat.div_le_div_right h) (le_of_eq (Nat.mul_div_cancel c hb))
  have hsucc : a % b ≠ 0 → a / b + 1 ≤ c := by
    intro hr
    have hne : a ≠ c * b := by
      intro e
      subst e
      exact hr (Nat.mul_mod_left c b)
    have hlt : a < c * b := lt_of_le_of_ne h hne
    have := (Nat.div_lt_iff_lt_mul hb).mpr hlt
    omega
  simp only [natRoundDiv]
  split_ifs with h1 h2 h3
  · exact hq
  · exact hsucc (by omega)
  · exact hq
  · exact hsucc (by omega)

theorem natRoundDiv_mono (b a a' : Nat) (hb : 0 < b) (h : a ≤ a') :
    natRoundDiv a b ≤ natRoundDiv a' b := by
  by_cases hqq : a / b < a' / b
  · have h1 := natRoundDiv_le_div_succ a b
    have h2 := natRoundDiv_ge_div a' b
    omega
  · have hq : a / b = a' / b :=
      Nat.le_antisymm (Nat.div_le_div_right h) (not_lt.mp hqq)
    have hr : a % b ≤ a' % b := by
      have e1 := Nat.div_add_mod a b
      have e2 := Nat.div_add_mod a' b
      rw [hq] at e1
      omega
    simp only [natRoundDiv]
    rw [hq]
    split_ifs <;> omega

theorem shotPos_lt (n m i : Nat) (hm : 1 ≤ m) (hi : i < n) : shotPos n m i < m := by
  unfold shotPos
  have hb : 0 < max 1 (n - 1) := by omega
  have hle : i * (m - 1) ≤ (m - 1) * max 1 (n - 1) := by
    have h1 : i ≤ max 1 (n - 1) := by omega
    calc i * (m - 1) ≤ max 1 (n - 1) * (m - 1) := Nat.mul_le_mul_right _ h1
      _ = (m - 1) * max 1 (n - 1) := Nat.mul_comm _ _
  have := natRoundDiv_le (i * (m - 1)) (max 1 (n - 1)) (m - 1) hb hle
  omega

theorem shotPos_mono (n m i i' : Nat) (h : i ≤ i') : shotPos n m i ≤ shotPos n m i' := by
  unfold shotPos
  exact natRoundDiv_mono (max 1 (n - 1)) _ _ (by omega) (Nat.mul_le_mul_right _ h)

theorem hiFold_spec (lines : List (List Char)) : ∀ (acc : List Nat) (c : Nat),
    acc.Pairwise (· < ·) → (∀ x ∈ acc, x < c) →
    ((lines.foldl hiStep (acc, c)).1.Pairwise (· < ·) ∧
      (∀ x ∈ (lines.foldl hiStep (acc, c)).1, x < (lines.foldl hiStep (acc, c)).2)) := by
  induction lines with
  | nil => intro acc c h1 h2; exact ⟨h1, h2⟩
  | cons raw rest ih =>
    intro acc c h1 h2
    simp only [List.foldl_cons]
    cases hm : headingMatch (stripL raw) with
    | none =>
      simp only [hiStep, hm]
      exact ih acc c h1 h2
    | some lt =>
      simp only [hiStep, hm]
      by_cases hl : 2 ≤ lt.1
      · simp only [hl, if_true]
        refine ih (acc ++ [c]) (c + 1) ?_ ?_
        · rw [List.pairwise_append]
          refine ⟨h1, by simp, ?_⟩
          intro a ha b hb
          simp only [List.mem_singleton] at hb
          subst hb
          exact h2 a ha
        · intro x hx
          rcases List.mem_append.mp hx with hx | hx
          · exact lt_trans (h2 x hx) (by omega)
          · simp only [List.mem_singleton] at hx
            omega
      · simp only [hl, if_false]
        refine ih acc (c + 1) h1 ?_
        intro x hx
        exact lt_trans (h2 x hx) (by omega)

theorem heading_indexes_pairwise (note : List Char) :
    (heading_indexes note).Pairwise (· < ·) := by
  unfold heading_indexes
  exact (hiFold_spec (splitLines note) [] 0 (by simp) (by simp)).1

theorem getD_map_fst (l : List (Nat × List String)) (j : Nat) (hj : j < l.length) :
    (l.map Prod.fst).getD j 0 = (l.getD j (0, [])).1 := by
  rw [List.getD_eq_getElem _ 0 (by simpa using hj), List.getD_eq_getElem _ (0, []) hj]
  simp

theorem getD_map_snd (l : List (Nat × List String)) (j : Nat) (hj : j < l.length) :
    (l.map Prod.snd).getD j [] = (l.getD j (0, [])).2 := by
  rw [List.getD_eq_getElem _ [] (by simpa using hj), List.getD_eq_getElem _ (0, []) hj]
  simp

theorem set_getD_self (l : List Nat) (j : Nat) (hj : j < l.length) :
    l.set j (l.getD j 0) = l := by
  rw [List.getD_eq_getElem l 0 hj]
  apply List.ext_getElem
  · simp
  · intro n h1 h2
    by_cases hn : j = n
    · subst hn; simp
    · rw [List.getElem_set_of_ne hn]

theorem appendAt_set : ∀ (l : List (Nat × List String)) (j : Nat) (v : String),
    (l.map Prod.fst).Nodup → j < l.length →
    appendAt ((l.getD j (0, [])).1) v l =
      l.set j ((l.getD j (0, [])).1, (l.getD j (0, [])).2 ++ [v]) := by
  intro l
  induction l with
  | nil => intro j v _ hj; simp at hj
  | cons e rest ih =>
    intro j v hnd hj
    obtain ⟨k, vs⟩ := e
    cases j with
    | zero =>
      simp [appendAt, List.getD_cons_zero]
    | succ j' =>
      have hj' : j' < rest.length := by simpa using hj
      simp only [List.getD_cons_succ, List.set_cons_succ]
      have hkey : (rest.getD j' (0, [])).1 ∈ rest.map Prod.fst := by
        rw [List.getD_eq_getElem rest (0, []) hj']
        exact List.mem_map_of_mem _ (List.getElem_mem hj')
      have hnd' : (rest.map Prod.fst).Nodup := by
        rw [List.map_cons] at hnd
        exact (List.nodup_cons.mp hnd).2
      have hk : ¬ (k = (rest.getD j' (0, [])).1) := by
        intro e
        rw [List.map_cons] at hnd
        have := (List.nodup_cons.mp hnd).1
        rw [e] at this
        exact this hkey
      simp only [appendAt, hk, if_false]
      rw [ih j' v hnd' hj']

theorem flatten_set_append : ∀ (ls : List (List String)) (j : Nat) (x : List String),
    j < ls.length →
    (∀ j', j < j' → j' < ls.length → ls.getD j' [] = []) →
    (ls.set j (ls.getD j [] ++ x)).flatten = ls.flatten ++ x := by
  intro ls
  induction ls with
  | nil => intro j x hj; simp at hj
  | cons b t ih =>
    intro j x hj hemp
    cases j with
    | zero =>
      simp only [List.getD_cons_zero, List.set_cons_zero, List.flatten_cons]
      have ht : t.flatten = [] := by
        refine List.flatten_eq_nil_iff.mpr ?_
        intro l hl
        obtain ⟨j', hj', he⟩ := List.mem_iff_getElem.mp hl
        have := hemp (j' + 1) (by omega) (by simpa using hj')
        rw [List.getD_cons_succ, List.getD_eq_getElem t [] hj'] at this
        rw [← he]
        exact this
      rw [ht]
      simp
    | succ j' =>
      simp only [List.getD_cons_succ, List.set_cons_succ, List.flatten_cons]
      rw [ih j' x (by simpa using hj) (fun j'' h1 h2 => by
        have := hemp (j'' + 1) (by omega) (by simpa using h2)
        rwa [List.getD_cons_succ] at this)]
      simp

theorem insFold_inv (idxs : List Nat) (shots : List String) (hnd : idxs.Nodup)
    (hm : 1 ≤ idxs.length) :
    ∀ (rest : List String) (k : Nat) (acc : List (Nat × List String)),
    rest = shots.drop k → k ≤ shots.length →
    acc.map Prod.fst = idxs →
    (acc.map Prod.snd).flatten = shots.take k →
    (∀ i, i < k → ∃ b, acc[shotPos shots.length idxs.length i]? = some b ∧
      shots.getD i "" ∈ b.2) →
    (∀ j, j < acc.length → (∀ i, i < k → shotPos shots.length idxs.length i ≠ j) →
      (acc.getD j (0, [])).2 = []) →
    (((rest.enumFrom k).foldl (insStep idxs shots.length idxs.length) acc).map Prod.fst
        = idxs ∧
      (((rest.enumFrom k).foldl (insStep idxs shots.length idxs.length) acc).map
        Prod.snd).flatten = shots ∧
      (∀ i, i < shots.length →
        ∃ b, ((rest.enumFrom k).foldl (insStep idxs shots.length idxs.length)
            acc)[shotPos shots.length idxs.length i]? = some b ∧
          shots.getD i "" ∈ b.2)) := by
  intro rest
  induction rest with
  | nil =>
    intro k acc hrest hk hf hfl hmem hempb
    have hkn : k = shots.length := by
      have := congrArg List.length hrest
      simp only [List.length_nil, List.length_drop] at this
      omega
    subst hkn
    simp only [List.enumFrom_nil, List.foldl_nil]
    refine ⟨hf, ?_, fun i hi => hmem i hi⟩
    rw [hfl, List.take_length]
  | cons s rest' ih =>
    intro k acc hrest hk hf hfl hmem hempb
    have hkl : k < shots.length := by
      by_contra hge
      rw [List.drop_eq_nil_of_le (not_lt.mp hge)] at hrest
      simp at hrest
    have hsk : shots[k] = s ∧ shots.drop (k + 1) = rest' := by
      have hdr := List.drop_eq_getElem_cons hkl
      rw [← hrest] at hdr
      injection hdr with h1 h2
      exact ⟨h1.symm, h2.symm⟩
    have hlen : acc.length = idxs.length := by
      have := congrArg List.length hf
      simpa using this
    set σ := shotPos shots.length idxs.length with hσ
    have hjm : σ k < idxs.length := shotPos_lt shots.length idxs.length k hm hkl
    have hja : σ k < acc.length := by omega
    have hkeyeq : idxs.getD (σ k) 0 = (acc.getD (σ k) (0, [])).1 := by
      rw [← hf]
      exact getD_map_fst acc (σ k) hja
    have hstep : insStep idxs shots.length idxs.length acc (k, s) =
        acc.set (σ k) ((acc.getD (σ k) (0, [])).1, (acc.getD (σ k) (0, [])).2 ++ [s]) := by
      unfold insStep
      rw [← hσ, hkeyeq]
      exact appendAt_set acc (σ k) s (by rwa [hf]) hja
    have hemptail : ∀ j', σ k < j' → j' < (acc.map Prod.snd).length →
        (acc.map Prod.snd).getD j' [] = [] := by
      intro j' h1 h2
      have h2' : j' < acc.length := by simpa using h2
      rw [getD_map_snd acc j' h2']
      refine hempb j' h2' ?_
      intro i hi he
      have hmono : σ i ≤ σ k := shotPos_mono shots.length idxs.length i k (by omega)
      omega
    set acc' := acc.set (σ k) ((acc.getD (σ k) (0, [])).1, (acc.getD (σ k) (0, [])).2 ++ [s])
      with hacc'
    have hf' : acc'.map Prod.fst = idxs := by
      rw [hacc', List.map_set]
      have : (acc.map Prod.fst).set (σ k) (acc.getD (σ k) (0, [])).1 =
          (acc.map Prod.fst).set (σ k) ((acc.map Prod.fst).getD (σ k) 0) := by
        rw [getD_map_fst acc (σ k) hja]
      rw [this, hf, set_getD_self idxs (σ k) hjm]
    have hfl' : (acc'.map Prod.snd).flatten = shots.take (k + 1) := by
      rw [hacc', List.map_set]
      have hx : ((acc.map Prod.snd).set (σ k)
          ((acc.map Prod.snd).getD (σ k) [] ++ [s])).flatten =
          (acc.map Prod.snd).flatten ++ [s] := by
        refine flatten_set_append (acc.map Prod.snd) (σ k) [s] (by simpa using hja) hemptail
      rw [show ((acc.getD (σ k) (0, [])).2 ++ [s]) =
        ((acc.map Prod.snd).getD (σ k) [] ++ [s]) by rw [getD_map_snd acc (σ k) hja]]
      rw [hx, hfl, List.take_succ, List.getElem?_eq_getElem hkl, hsk.1]
      rfl
    have hmem' : ∀ i, i < k + 1 →
        ∃ b, acc'[σ i]? = some b ∧ shots.getD i "" ∈ b.2 := by
      intro i hi
      by_cases hik : i < k
      · obtain ⟨b, hb, hbm⟩ := hmem i hik
        by_cases hsame : σ i = σ k
        · refine ⟨((acc.getD (σ k) (0, [])).1, (acc.getD (σ k) (0, [])).2 ++ [s]), ?_, ?_⟩
          · rw [hacc', hsame]
            exact List.getElem?_set_self hja
          · obtain ⟨hblt, hbe⟩ := List.getElem?_eq_some_iff.mp hb
            have hgd : acc.getD (σ i) (0, []) = b := by
              rw [List.getD_eq_getElem acc (0, []) hblt]
              exact hbe
            have h2 : b.2 = (acc.getD (σ k) (0, [])).2 := by
              rw [← hsame, hgd]
            rw [← h2]
            exact List.mem_append_left _ hbm
        · refine ⟨b, ?_, hbm⟩
          rw [hacc', List.getElem?_set_ne (fun e => hsame e.symm)]
          exact hb
      · have hik2 : i = k := by omega
        subst hik2
        refine ⟨((acc.getD (σ i) (0, [])).1, (acc.getD (σ i) (0, [])).2 ++ [s]), ?_, ?_⟩
        · rw [hacc']
          exact List.getElem?_set_self hja
        · rw [List.getD_eq_getElem shots "" hkl, hsk.1]
          exact List.mem_append_right _ (by simp)
    have hempb' : ∀ j, j < acc'.length → (∀ i, i < k + 1 → σ i ≠ j) →
        (acc'.getD j (0, [])).2 = [] := by
      intro j hj hne
      have hjlen : j < acc.length := by
        rw [hacc'] at hj
        simpa using hj
      have hnk : σ k ≠ j := hne k (by omega)
      have : acc'.getD j (0, []) = acc.getD j (0, []) := by
        rw [hacc']
        rw [List.getD_eq_getElem _ (0, []) (by simpa using hjlen),
          List.getD_eq_getElem _ (0, []) hjlen]
        exact List.getElem_set_of_ne hnk _ (by simpa using hjlen)
      rw [this]
      exact hempb j hjlen (fun i hi => hne i (by omega))
    have hfold : ((s :: rest').enumFrom k).foldl (insStep idxs shots.length idxs.length) acc
        = ((rest'.enumFrom (k + 1)).foldl (insStep idxs shots.length idxs.length)
            (insStep idxs shots.length idxs.length acc (k, s))) := rfl
    rw [hfold, hstep]
    exact ih (k + 1) acc' hsk.2.symm (by omega) hf' hfl' hmem' hempb'

/-- Claim C6, as stated, is false in its "In every case each asset path
appears in exactly one mapped list" part: with a non-empty asset list and
zero level-≥2 headings the planner (as the claim itself also says) returns
the empty mapping, so the asset appears in no mapped list at all. -/
theorem C6_counterexample :
    build_screenshot_insert_map (("x").toList) ["a"] = [] ∧
      (["a"] : List String) ≠ [] ∧
      ((build_screenshot_insert_map (("x").toList) ["a"]).map Prod.snd).flatten = [] := by
  decide

/-- Claim C6 (amended): for every note text and non-empty asset list:
zero level-≥2 headings give an empty mapping; exactly one gives every
asset mapped to it; otherwise the map's keys are exactly the heading
indexes, and the i-th of N assets lands in the bucket at slot
`round(i*(M-1)/(N-1))` of the M slots (the bucket keyed by that slot's
heading index).  Whenever at least one level-≥2 heading exists (the
correction the counterexample forces), concatenating the mapped lists in
heading order reproduces the asset list — so each asset occurrence
appears in exactly one mapped list, in input order. -/
theorem C6_planner_distribution (note : List Char) (shots : List String)
    (hne : shots ≠ []) :
    (heading_indexes note = [] → build_screenshot_insert_map note shots = []) ∧
    (∀ a, heading_indexes note = [a] →
      build_screenshot_insert_map note shots = [(a, shots)]) ∧
    (2 ≤ (heading_indexes note).length →
      ((build_screenshot_insert_map note shots).map Prod.fst = heading_indexes note ∧
       ∀ i, i < shots.length →
        ∃ b, (build_screenshot_insert_map note
            shots)[shotPos shots.length (heading_indexes note).length i]? = some b ∧
          shots.getD i "" ∈ b.2 ∧
          b.1 = (heading_indexes note).getD
            (shotPos shots.length (heading_indexes note).length i) 0)) ∧
    (heading_indexes note ≠ [] →
      ((build_screenshot_insert_map note shots).map Prod.snd).flatten = shots) := by
  have hse : shots.isEmpty = false := by
    cases shots with
    | nil => exact absurd rfl hne
    | cons a t => rfl
  have hnd : (heading_indexes note).Nodup :=
    (heading_indexes_pairwise note).imp (fun h => Nat.ne_of_lt h)
  rcases hidx : heading_indexes note with _ | ⟨a, _ | ⟨b, t⟩⟩
  · refine ⟨fun _ => ?_, fun a ha => ?_, fun hlen => ?_, fun hn => ?_⟩
    · simp [build_screenshot_insert_map, hse, hidx]
    · simp at ha
    · simp at hlen
    · exact absurd rfl hn
  · refine ⟨fun h => ?_, fun a' ha => ?_, fun hlen => ?_, fun hn => ?_⟩
    · simp at h
    · simp only [List.cons.injEq, and_true] at ha
      subst ha
      simp [build_screenshot_insert_map, hse, hidx]
    · simp at hlen
    · simp [build_screenshot_insert_map, hse, hidx]
  · have hm : 1 ≤ (a :: b :: t).length := by simp
    have hbuild : build_screenshot_insert_map note shots =
        (shots.enumFrom 0).foldl (insStep (a :: b :: t) shots.length (a :: b :: t).length)
          ((a :: b :: t).map (fun i => (i, ([] : List String)))) := by
      simp only [build_screenshot_insert_map, hse, Bool.false_eq_true, if_false, hidx]
      rfl
    rw [hidx] at hnd
    have hinit : ((a :: b :: t).map (fun i => (i, ([] : List String)))).map Prod.fst
        = a :: b :: t := by
      rw [List.map_map]
      simp [Function.comp_def]
    have hinit2 : (((a :: b :: t).map (fun i => (i, ([] : List String)))).map
        Prod.snd).flatten = shots.take 0 := by
      simp only [List.map_map, List.take_zero]
      refine List.flatten_eq_nil_iff.mpr ?_
      intro l hl
      simp only [List.mem_map] at hl
      obtain ⟨x, -, he⟩ := hl
      exact he.symm
    have hinit4 : ∀ j, j < ((a :: b :: t).map (fun i => (i, ([] : List String)))).length →
        (∀ i, i < 0 → shotPos shots.length (a :: b :: t).length i ≠ j) →
        ((((a :: b :: t)).map (fun i => (i, ([] : List String)))).getD j (0, [])).2 = [] := by
      intro j hj _
      have hj' : j < (a :: b :: t).length := by simpa using hj
      rw [List.getD_eq_getElem _ (0, []) hj, List.getElem_map]
    obtain ⟨hc1, hc2, hc3⟩ := insFold_inv (a :: b :: t) shots hnd hm shots 0
      ((a :: b :: t).map (fun i => (i, ([] : List String)))) rfl (by omega)
      hinit hinit2 (fun i hi => absurd hi (Nat.not_lt_zero i)) hinit4
    refine ⟨fun h => by simp at h, fun a' ha => by simp at ha, fun _ => ⟨?_, ?_⟩, fun _ => ?_⟩
    · rw [hbuild]
      exact hc1
    · intro i hi
      obtain ⟨bkt, hb, hbm⟩ := hc3 i hi
      refine ⟨bkt, by rw [hbuild]; exact hb, hbm, ?_⟩
      obtain ⟨hlt, hbe⟩ := List.getElem?_eq_some_iff.mp hb
      have hltm : shotPos shots.length (a :: b :: t).length i <
          ((shots.enumFrom 0).foldl
            (insStep (a :: b :: t) shots.length (a :: b :: t).length)
            ((a :: b :: t).map (fun i => (i, ([] : List String))))).length := hlt
      have hfstj : bkt.1 = (((shots.enumFrom 0).foldl
          (insStep (a :: b :: t) shots.length (a :: b :: t).length)
          ((a :: b :: t).map (fun i => (i, ([] : List String))))).map
            Prod.fst).getD (shotPos shots.length (a :: b :: t).length i) 0 := by
        rw [getD_map_fst _ _ hltm, List.getD_eq_getElem _ (0, []) hltm, hbe]
      rw [hfstj, hc1]
    · rw [hbuild]
      exact hc2

/-- The witness input for C6: three level-≥2 headings. -/
def note6 : List Char := ("## A\ntext\n## B\nx\n#### C").toList

theorem C6_witness :
    ((["s1", "s2", "s3", "s4"] : List String) ≠ []) ∧
    ((heading_indexes note6 = [] →
        build_screenshot_insert_map note6 ["s1", "s2", "s3", "s4"] = []) ∧
      (∀ a, heading_indexes note6 = [a] →
        build_screenshot_insert_map note6 ["s1", "s2", "s3", "s4"] =
          [(a, ["s1", "s2", "s3", "s4"])]) ∧
      (2 ≤ (heading_indexes note6).length →
        ((build_screenshot_insert_map note6 ["s1", "s2", "s3", "s4"]).map Prod.fst =
            heading_indexes note6 ∧
         ∀ i, i < (["s1", "s2", "s3", "s4"] : List String).length →
          ∃ b, (build_screenshot_insert_map note6
              ["s1", "s2", "s3", "s4"])[shotPos
                (["s1", "s2", "s3", "s4"] : List String).length
                (heading_indexes note6).length i]? = some b ∧
            (["s1", "s2", "s3", "s4"] : List String).getD i "" ∈ b.2 ∧
            b.1 = (heading_indexes note6).getD
              (shotPos (["s1", "s2", "s3", "s4"] : List String).length
                (heading_indexes note6).length i) 0)) ∧
      (heading_indexes note6 ≠ [] →
        ((build_screenshot_insert_map note6
          ["s1", "s2", "s3", "s4"]).map Prod.snd).flatten = ["s1", "s2", "s3", "s4"])) :=
  ⟨by decide, C6_planner_distribution note6 ["s1", "s2", "s3", "s4"] (by decide)⟩

/-! ### C7: reconciliation fallback of the Media Binding Resolver -/

/-- The tasks whose temporary id has no (non-empty) entry in the
id-relations map, in task order. -/
def unresolvedOf (rels : List (String × String)) (tasks : List (String × MediaTask)) :
    List (String × MediaTask) :=
  tasks.filter (fun p => (rels.lookup p.1).getD "" = "")

/-- The block ids consumed by the resolved tasks, in task order. -/
def usedOf (rels : List (String × String)) (tasks : List (String × MediaTask)) :
    List String :=
  tasks.filterMap (fun p =>
    if (rels.lookup p.1).getD "" = "" then none else some ((rels.lookup p.1).getD ""))

/-- The upload attempts of the resolved tasks: each resolved task paired
with its relation-resolved block id, in task order. -/
def resolvedAttemptsOf (rels : List (String × String)) (tasks : List (String × MediaTask)) :
    List (String × String) :=
  tasks.filterMap (fun p =>
    if (rels.lookup p.1).getD "" = "" then none else some (p.1, (rels.lookup p.1).getD ""))

theorem bindOne_attempts (env : BindEnv) (tid : String) (t : MediaTask) (bid : String)
    (h : ¬ stripS t.value = "") : (bindOne env tid t bid).2 = [(tid, bid)] := by
  unfold bindOne
  simp only [h, if_false]
  cases env.upload ⟨t.kind, stripS t.value⟩ bid <;> rfl

theorem bindOne_ok (env : BindEnv) (tid : String) (t : MediaTask) (bid : String)
    (h : ¬ stripS t.value = "")
    (hup : ∀ t' b, (env.upload t' b).isSome = true)
    (hrep : ∀ b f, env.replaceImg b f = true) : (bindOne env tid t bid).1 = true := by
  unfold bindOne
  simp only [h, if_false]
  cases hu : env.upload ⟨t.kind, stripS t.value⟩ bid with
  | none =>
    have := hup ⟨t.kind, stripS t.value⟩ bid
    rw [hu] at this
    simp at this
  | some ft => simp [hrep]

theorem bindFold1_spec (env : BindEnv) (rels : List (String × String)) :
    ∀ (tasks : List (String × MediaTask)),
    (∀ p ∈ tasks, ¬ stripS p.2.value = "") → ∀ acc : BindAcc,
    (tasks.foldl (bindStep env rels) acc).unresolved =
        acc.unresolved ++ unresolvedOf rels tasks ∧
    (tasks.foldl (bindStep env rels) acc).used = acc.used ++ usedOf rels tasks ∧
    (tasks.foldl (bindStep env rels) acc).attempts =
        acc.attempts ++ resolvedAttemptsOf rels tasks := by
  intro tasks
  induction tasks with
  | nil => intro _ acc; simp [unresolvedOf, usedOf, resolvedAttemptsOf]
  | cons p t ih =>
    intro hval acc
    have hv : ¬ stripS p.2.value = "" := hval p (by simp)
    have iht := ih (fun q hq => hval q (by simp [hq])) (bindStep env rels acc p)
    obtain ⟨h1, h2, h3⟩ := iht
    simp only [List.foldl_cons]
    by_cases hb : ((rels.lookup p.1).getD "") = ""
    · rw [h1, h2, h3]
      simp [bindStep, hb, unresolvedOf, usedOf, resolvedAttemptsOf, List.filter_cons,
        List.filterMap_cons]
    · rw [h1, h2, h3]
      simp [bindStep, hb, unresolvedOf, usedOf, resolvedAttemptsOf, List.filter_cons,
        List.filterMap_cons, bindOne_attempts env p.1 p.2 _ hv]

theorem bindFold1_all_ok (env : BindEnv) (rels : List (String × String))
    (hup : ∀ t' b, (env.upload t' b).isSome = true)
    (hrep : ∀ b f, env.replaceImg b f = true) :
    ∀ (tasks : List (String × MediaTask)),
    (∀ p ∈ tasks, ¬ stripS p.2.value = "") → ∀ acc : BindAcc,
    (tasks.foldl (bindStep env rels) acc).okCount =
        acc.okCount + (resolvedAttemptsOf rels tasks).length ∧
    (tasks.foldl (bindStep env rels) acc).failCount = acc.failCount := by
  intro tasks
  induction tasks with
  | nil => intro _ acc; simp [resolvedAttemptsOf]
  | cons p t ih =>
    intro hval acc
    have hv : ¬ stripS p.2.value = "" := hval p (by simp)
    have iht := ih (fun q hq => hval q (by simp [hq])) (bindStep env rels acc p)
    obtain ⟨h1, h2⟩ := iht
    simp only [List.foldl_cons]
    by_cases hb : ((rels.lookup p.1).getD "") = ""
    · rw [h1, h2]
      simp [bindStep, hb, resolvedAttemptsOf, List.filterMap_cons]
    · rw [h1, h2]
      have hok := bindOne_ok env p.1 p.2 ((rels.lookup p.1).getD "") hv hup hrep
      simp [bindStep, hb, resolvedAttemptsOf, List.filterMap_cons, hok]
      omega

theorem bindPhase2_all_ok (env : BindEnv)
    (hup : ∀ t' b, (env.upload t' b).isSome = true)
    (hrep : ∀ b f, env.replaceImg b f = true) :
    ∀ (pairs : List ((String × MediaTask) × String)),
    (∀ pb ∈ pairs, ¬ stripS pb.1.2.value = "") → ∀ acc : BindAcc,
    (bindPhase2 env acc pairs).okCount = acc.okCount + pairs.length ∧
    (bindPhase2 env acc pairs).failCount = acc.failCount ∧
    (bindPhase2 env acc pairs).attempts =
        acc.attempts ++ pairs.map (fun pb => (pb.1.1, pb.2)) := by
  intro pairs
  induction pairs with
  | nil => intro _ acc; simp [bindPhase2]
  | cons pb t ih =>
    intro hval acc
    have hv : ¬ stripS pb.1.2.value = "" := hval pb (by simp)
    have iht := ih (fun q hq => hval q (by simp [hq])) (bindStep2 env acc pb)
    obtain ⟨h1, h2, h3⟩ := iht
    simp only [bindPhase2, List.foldl_cons] at h1 h2 h3 ⊢
    rw [h1, h2, h3]
    have hok := bindOne_ok env pb.1.1 pb.1.2 pb.2 hv hup hrep
    simp [bindStep2, hok, bindOne_attempts env pb.1.1 pb.1.2 pb.2 hv]
    omega

theorem resolved_unresolved_length (rels : List (String × String)) :
    ∀ tasks : List (String × MediaTask),
    (resolvedAttemptsOf rels tasks).length + (unresolvedOf rels tasks).length =
      tasks.length := by
  intro tasks
  induction tasks with
  | nil => rfl
  | cons p t ih =>
    by_cases hb : ((rels.lookup p.1).getD "") = "" <;>
      simp [unresolvedOf, resolvedAttemptsOf, List.filter_cons, List.filterMap_cons, hb] at ih ⊢ <;>
        omega

/-- Claim C7: every media task whose temporary id has no entry in the
id-relations map is paired, in task order, with the server-confirmed
placeholder block ids not already consumed by a resolved task, and is
bound through the normal upload-and-patch path (the attempt trace is
exactly the resolved attempts followed by the zip pairing); only the
unresolved tasks left without a candidate block after this pairing are
counted as failures, with no upload attempt made for them — stated for
tasks with non-blank values and an environment on which every attempted
upload and patch succeeds. -/
theorem C7_reconciliation_fallback (env : BindEnv) (rels : List (String × String))
    (tasks : List (String × MediaTask)) (appendedIds : List String)
    (hval : ∀ p ∈ tasks, ¬ stripS p.2.value = "")
    (hup : ∀ t b, (env.upload t b).isSome = true)
    (hrep : ∀ b f, env.replaceImg b f = true) :
    (bind_images env rels tasks appendedIds).attempts =
        resolvedAttemptsOf rels tasks ++
          ((unresolvedOf rels tasks).zip
            (appendedIds.filter (fun b => ¬ (usedOf rels tasks).contains b))).map
            (fun pb => (pb.1.1, pb.2)) ∧
    (bind_images env rels tasks appendedIds).failCount =
        (unresolvedOf rels tasks).length -
          (appendedIds.filter (fun b => ¬ (usedOf rels tasks).contains b)).length ∧
    (bind_images env rels tasks appendedIds).okCount =
        tasks.length - ((unresolvedOf rels tasks).length -
          (appendedIds.filter (fun b => ¬ (usedOf rels tasks).contains b)).length) := by
  by_cases hemp : tasks.isEmpty
  · rw [List.isEmpty_eq_true] at hemp
    subst hemp
    simp [bind_images, unresolvedOf, usedOf, resolvedAttemptsOf]
  · simp only [bind_images, hemp, Bool.false_eq_true, if_false, bindPhase1]
    obtain ⟨hu1, hu2, hu3⟩ := bindFold1_spec env rels tasks hval ⟨0, 0, [], [], []⟩
    obtain ⟨hk1, hk2⟩ := bindFold1_all_ok env rels hup hrep tasks hval ⟨0, 0, [], [], []⟩
    simp only [List.nil_append] at hu1 hu2 hu3 hk1 hk2
    simp only [hu2, hu1]
    have hzval : ∀ pb ∈ (unresolvedOf rels tasks).zip
        (appendedIds.filter (fun b => ¬ (usedOf rels tasks).contains b)),
        ¬ stripS pb.1.2.value = "" := by
      intro pb hpb
      exact hval pb.1 (List.mem_of_mem_filter (List.of_mem_zip hpb).1)
    obtain ⟨hp1, hp2, hp3⟩ := bindPhase2_all_ok env hup hrep
      ((unresolvedOf rels tasks).zip
        (appendedIds.filter (fun b => ¬ (usedOf rels tasks).contains b))) hzval
      (tasks.foldl (bindStep env rels) ⟨0, 0, [], [], []⟩)
    refine ⟨?_, ?_, ?_⟩
    · rw [hp3, hu3]
    · rw [hp2, hk2]
      simp
    · rw [hp1, hk1, List.length_zip]
      have hlen := resolved_unresolved_length rels tasks
      omega

/-- The claim's concrete scenario: two tasks of which only the first
resolves via id_relations, two server-confirmed placeholder ids of which
the first is consumed by the resolved task. -/
def tasks7 : List (String × MediaTask) :=
  [("t1", ⟨.urlK, "v1"⟩), ("t2", ⟨.urlK, "v2"⟩)]

/-- An all-success binding environment. -/
def env7 : BindEnv := ⟨fun _ _ => some "ft", fun _ _ => true⟩

theorem C7_witness :
    ((∀ p ∈ tasks7, ¬ stripS p.2.value = "") ∧
      (∀ t b, (env7.upload t b).isSome = true) ∧
      (∀ b f, env7.replaceImg b f = true)) ∧
    ((bind_images env7 [("t1", "b1")] tasks7 ["b1", "b2"]).attempts =
        resolvedAttemptsOf [("t1", "b1")] tasks7 ++
          ((unresolvedOf [("t1", "b1")] tasks7).zip
            ((["b1", "b2"] : List String).filter
              (fun b => ¬ (usedOf [("t1", "b1")] tasks7).contains b))).map
            (fun pb => (pb.1.1, pb.2)) ∧
      (bind_images env7 [("t1", "b1")] tasks7 ["b1", "b2"]).failCount =
        (unresolvedOf [("t1", "b1")] tasks7).length -
          ((["b1", "b2"] : List String).filter
            (fun b => ¬ (usedOf [("t1", "b1")] tasks7).contains b)).length ∧
      (bind_images env7 [("t1", "b1")] tasks7 ["b1", "b2"]).okCount =
        tasks7.length - ((unresolvedOf [("t1", "b1")] tasks7).length -
          ((["b1", "b2"] : List String).filter
            (fun b => ¬ (usedOf [("t1", "b1")] tasks7).contains b)).length)) :=
  ⟨⟨by decide, fun _ _ => rfl, fun _ _ => rfl⟩,
    C7_reconciliation_fallback env7 [("t1", "b1")] tasks7 ["b1", "b2"]
      (by decide) (fun _ _ => rfl) (fun _ _ => rfl)⟩

end FW
